import Mathlib

/-!
# Verification of the iota.js payload binary codec

A shallow embedding of src/src/binary/payload.ts: the length-framed payload
envelope, the four variant codecs (Transaction, Milestone, Indexation,
Receipt) and their dispatch.  Bytes are modelled as natural numbers,
multi-byte integers are little-endian, hex-string fields of the TypeScript
API are modelled as the byte lists they denote, and diagnostic field-name
strings are dropped (errors keep the numeric diagnostics the code
interpolates into its messages).

The byte cursors (ReadStream, WriteStream), the shared wire-layout
constants, and the essence / unlock-block / migrated-funds sub-codecs are
not part of the given sources; they are modelled from the specification and
carry doc comments saying so.
-/

/-- Equality of fallible results is decidable, so concrete codec runs can
be checked by evaluation. -/
instance {ε α : Type} [DecidableEq ε] [DecidableEq α] :
    DecidableEq (Except ε α) := fun x y =>
  match x, y with
  | .ok a, .ok b =>
    if h : a = b then .isTrue (by rw [h]) else .isFalse (by simp [h])
  | .error e, .error f =>
    if h : e = f then .isTrue (by rw [h]) else .isFalse (by simp [h])
  | .ok _, .error _ => .isFalse (by simp)
  | .error _, .ok _ => .isFalse (by simp)

/-- Little-endian bytes of a 16-bit value, as written by a 2-byte write. -/
def u16le (v : Nat) : List Nat := [v % 256, v / 256 % 256]

/-- Little-endian bytes of a 32-bit value, as written by a 4-byte write. -/
def u32le (v : Nat) : List Nat :=
  [v % 256, v / 256 % 256, v / 65536 % 256, v / 16777216 % 256]

/-- Little-endian bytes of a 64-bit value, as written by an 8-byte write. -/
def u64le (v : Nat) : List Nat :=
  [v % 256, v / 256 % 256, v / 65536 % 256, v / 16777216 % 256,
   v / 4294967296 % 256, v / 1099511627776 % 256,
   v / 281474976710656 % 256, v / 72057594037927936 % 256]

/-- Value of a little-endian byte list. -/
def fromLE (bs : List Nat) : Nat := bs.foldr (fun b acc => b + 256 * acc) 0

/-! ## Wire-layout constants -/

/-- Modelled from the spec: binary/common.ts is not in the sources; a byte. -/
def BYTE_SIZE : Nat := 1

/-- Modelled from the spec: binary/common.ts is not in the sources; a uint16. -/
def UINT16_SIZE : Nat := 2

/-- Modelled from the spec: binary/common.ts is not in the sources; a uint32. -/
def UINT32_SIZE : Nat := 4

/-- Modelled from the spec: binary/common.ts is not in the sources; a uint64. -/
def UINT64_SIZE : Nat := 8

/-- Modelled from the spec: binary/common.ts is not in the sources; the
4-byte type discriminant. -/
def TYPE_LENGTH : Nat := UINT32_SIZE

/-- Modelled from the spec: binary/common.ts is not in the sources; the
2-byte length field put before a serialized string. -/
def STRING_LENGTH : Nat := 2

/-- Modelled from the spec: binary/common.ts is not in the sources; a
message-id digest is 32 bytes. -/
def MESSAGE_ID_LENGTH : Nat := 32

/-- Modelled from the spec: binary/common.ts is not in the sources; the
inclusion merkle proof is a fixed 32-byte digest. -/
def MERKLE_PROOF_LENGTH : Nat := 32

/-- Modelled from the spec: crypto/ed25519.ts is not in the sources; an
Ed25519 public key is 32 bytes. -/
def Ed25519.PUBLIC_KEY_SIZE : Nat := 32

/-- Modelled from the spec: crypto/ed25519.ts is not in the sources; an
Ed25519 signature is 64 bytes. -/
def Ed25519.SIGNATURE_SIZE : Nat := 64

/-- Modelled from the spec: models/ITransactionPayload.ts is not in the
sources; the Transaction payload type tag is 0. -/
def TRANSACTION_PAYLOAD_TYPE : Nat := 0

/-- Modelled from the spec: models/IMilestonePayload.ts is not in the
sources; the Milestone payload type tag is 1. -/
def MILESTONE_PAYLOAD_TYPE : Nat := 1

/-- Modelled from the spec: models/IIndexationPayload.ts is not in the
sources; the Indexation payload type tag is 2. -/
def INDEXATION_PAYLOAD_TYPE : Nat := 2

/-- The Receipt payload type tag, from typings/models/IReceiptPayload.d.ts. -/
def RECEIPT_PAYLOAD_TYPE : Nat := 3

/-- Modelled from the spec: models/ITransactionEssence.ts is not in the
sources; the one recognized transaction essence kind. -/
def TRANSACTION_ESSENCE_TYPE : Nat := 0

/-- Modelled from the spec: binary/funds.ts is not in the sources; the spec
fixes no size for one migrated-funds entry, only that the receipt minimum
counts one entry, so one concrete entry size is chosen. -/
def MIN_MIGRATED_FUNDS_LENGTH : Nat := 90

/-! ## Data model

Modelled from the spec and typings: apart from IReceiptPayload (whose .d.ts
is in the sources) the model interfaces are not in the sources.  Hex-string
fields are modelled as byte lists. -/

/-- Modelled from the spec: a migrated-funds entry is opaque external
collaborator data of a fixed size; its bytes. -/
structure IMigratedFunds where
  bytes : List Nat
  deriving DecidableEq, Repr

/-- Receipt payload, from typings/models/IReceiptPayload.d.ts. -/
structure IReceiptPayload where
  migratedAt : Nat
  funds : List IMigratedFunds
  deriving DecidableEq, Repr

/-- Modelled from the spec: the transaction essence is opaque external
collaborator data serialized with its own type and count prefix; its
content bytes. -/
structure ITransactionEssence where
  data : List Nat
  deriving DecidableEq, Repr

/-- Modelled from the spec: models/ITransactionPayload.ts is not in the
sources; essence plus unlock blocks (the unlock-block list is opaque
external collaborator data, one byte per block in this model). -/
structure ITransactionPayload where
  essence : ITransactionEssence
  unlockBlocks : List Nat
  deriving DecidableEq, Repr

/-- Modelled from the spec: models/IIndexationPayload.ts is not in the
sources; index (a 1..64-byte string) and data bytes. -/
structure IIndexationPayload where
  index : List Nat
  data : List Nat
  deriving DecidableEq, Repr

/-- Modelled from the spec: models/IMilestonePayload.ts is not in the
sources; the embedded payload is typed as an optional receipt. -/
structure IMilestonePayload where
  index : Nat
  timestamp : Nat
  parent1MessageId : List Nat
  parent2MessageId : List Nat
  inclusionMerkleProof : List Nat
  publicKeys : List (List Nat)
  receipt : Option IReceiptPayload
  signatures : List (List Nat)
  deriving DecidableEq, Repr

/-- The union of the four payload kinds handled by the envelope. -/
inductive Payload where
  | transaction : ITransactionPayload → Payload
  | milestone : IMilestonePayload → Payload
  | indexation : IIndexationPayload → Payload
  | receipt : IReceiptPayload → Payload
  deriving DecidableEq, Repr

/-! ## Errors

One constructor per throw site reachable in the embedded slice, keeping the
numeric diagnostics that the TypeScript error messages interpolate. -/

/-- Errors of the codec; underflow constructors carry the diagnostics the
corresponding messages report. -/
inductive CodecError where
  | streamUnderflow : CodecError
  | payloadMinUnderflow : Nat → CodecError
  | payloadLengthExceeds : Nat → Nat → CodecError
  | unrecognizedPayloadType : Nat → CodecError
  | transactionMinUnderflow : Nat → CodecError
  | transactionTypeMismatch : Nat → CodecError
  | unrecognizedEssenceType : Nat → CodecError
  | essenceTypeMismatch : Nat → CodecError
  | milestoneMinUnderflow : Nat → CodecError
  | milestoneTypeMismatch : Nat → CodecError
  | milestoneNestedKind : CodecError
  | indexationMinUnderflow : Nat → CodecError
  | indexationTypeMismatch : Nat → CodecError
  | receiptMinUnderflow : Nat → CodecError
  | receiptTypeMismatch : Nat → CodecError
  | indexationKeyTooShort : Nat → CodecError
  | indexationKeyTooLong : Nat → CodecError
  | outOfFuel : CodecError
  deriving DecidableEq, Repr

/-- The TruncatedInput class of the error taxonomy: a declared or required
byte count exceeds the remaining buffer. -/
def CodecError.isTruncatedInput : CodecError → Bool
  | .streamUnderflow => true
  | .payloadMinUnderflow _ => true
  | .payloadLengthExceeds _ _ => true
  | .transactionMinUnderflow _ => true
  | .milestoneMinUnderflow _ => true
  | .indexationMinUnderflow _ => true
  | .receiptMinUnderflow _ => true
  | _ => false

/-! ## Byte cursors -/

/-- Modelled from the spec: utils/readStream.ts is not in the sources; a
byte buffer with a read position. -/
structure ReadStream where
  storage : List Nat
  readIndex : Nat
  deriving DecidableEq, Repr

namespace ReadStream

/-- Total length of the backing buffer. -/
def length (rs : ReadStream) : Nat := rs.storage.length

/-- Number of unread bytes. -/
def unused (rs : ReadStream) : Nat := rs.storage.length - rs.readIndex

/-- Modelled from the spec: whether at least n bytes remain unread. -/
def hasRemaining (rs : ReadStream) (n : Nat) : Bool :=
  decide (rs.readIndex + n ≤ rs.storage.length)

end ReadStream

/-- Result of a read computation: an error, or a value with the advanced
stream. -/
abbrev RRes (α : Type) := Except CodecError (α × ReadStream)

/-- Modelled from the spec: read n bytes and advance, failing when fewer
than n bytes remain. -/
def readBytesP (n : Nat) (rs : ReadStream) : RRes (List Nat) :=
  if rs.readIndex + n ≤ rs.storage.length then
    .ok ((rs.storage.drop rs.readIndex).take n, ⟨rs.storage, rs.readIndex + n⟩)
  else
    .error .streamUnderflow

/-- Modelled from the spec: read n bytes without advancing. -/
def peekBytesP (n : Nat) (rs : ReadStream) : RRes (List Nat) :=
  if rs.readIndex + n ≤ rs.storage.length then
    .ok ((rs.storage.drop rs.readIndex).take n, rs)
  else
    .error .streamUnderflow

/-- Modelled from the spec: read a little-endian uint16 and advance. -/
def readUInt16P (rs : ReadStream) : RRes Nat :=
  match readBytesP 2 rs with
  | .error e => .error e
  | .ok (bs, rs') => .ok (fromLE bs, rs')

/-- Modelled from the spec: read a little-endian uint32 and advance. -/
def readUInt32P (rs : ReadStream) : RRes Nat :=
  match readBytesP 4 rs with
  | .error e => .error e
  | .ok (bs, rs') => .ok (fromLE bs, rs')

/-- Modelled from the spec: read a little-endian uint32 without advancing
(a read with moveIndex set to false). -/
def peekUInt32P (rs : ReadStream) : RRes Nat :=
  match peekBytesP 4 rs with
  | .error e => .error e
  | .ok (bs, rs') => .ok (fromLE bs, rs')

/-- Modelled from the spec: read a little-endian uint64 and advance. -/
def readUInt64P (rs : ReadStream) : RRes Nat :=
  match readBytesP 8 rs with
  | .error e => .error e
  | .ok (bs, rs') => .ok (fromLE bs, rs')

/-- Modelled from the spec: read one byte and advance. -/
def readByteP (rs : ReadStream) : RRes Nat :=
  match readBytesP 1 rs with
  | .error e => .error e
  | .ok (bs, rs') => .ok (fromLE bs, rs')

/-- Modelled from the spec: read one byte without advancing (a read with
moveIndex set to false). -/
def peekByteP (rs : ReadStream) : RRes Nat :=
  match peekBytesP 1 rs with
  | .error e => .error e
  | .ok (bs, rs') => .ok (fromLE bs, rs')

/-- Modelled from the spec: read a fixed number of bytes exposed as hex at
the API boundary, as the bytes themselves. -/
def readFixedHexP (n : Nat) (rs : ReadStream) : RRes (List Nat) :=
  readBytesP n rs

/-- Modelled from the spec: read a string, a 2-byte length then that many
bytes. -/
def readStringP (rs : ReadStream) : RRes (List Nat) :=
  match readUInt16P rs with
  | .error e => .error e
  | .ok (n, rs') => readBytesP n rs'

/-- Modelled from the spec: read count many fixed-size byte blocks, in
order. -/
def readManyP (count size : Nat) (rs : ReadStream) : RRes (List (List Nat)) :=
  match count with
  | 0 => .ok ([], rs)
  | c + 1 =>
    match readBytesP size rs with
    | .error e => .error e
    | .ok (h, rs') =>
      match readManyP c size rs' with
      | .error e => .error e
      | .ok (t, rs'') => .ok (h :: t, rs'')

/-- Modelled from the spec: utils/writeStream.ts is not in the sources; a
growable byte buffer with a repositionable write index, where a write at a
position inside the buffer overwrites in place. -/
structure WriteStream where
  storage : List Nat
  writeIndex : Nat
  deriving DecidableEq, Repr

/-- Overwrite the bytes of buf from position i on with bs, growing the
buffer as needed. -/
def storeAt (buf : List Nat) (i : Nat) (bs : List Nat) : List Nat :=
  buf.take i ++ bs ++ buf.drop (i + bs.length)

namespace WriteStream

/-- The current write position. -/
def getWriteIndex (ws : WriteStream) : Nat := ws.writeIndex

/-- Modelled from the spec: reposition the write index without truncating
already-written bytes. -/
def setWriteIndex (ws : WriteStream) (i : Nat) : WriteStream :=
  ⟨ws.storage, i⟩

/-- Write raw bytes at the current position and advance. -/
def writeBytesRaw (ws : WriteStream) (bs : List Nat) : WriteStream :=
  ⟨storeAt ws.storage ws.writeIndex bs, ws.writeIndex + bs.length⟩

/-- Modelled from the spec: write a little-endian uint16. -/
def writeUInt16 (ws : WriteStream) (v : Nat) : WriteStream :=
  ws.writeBytesRaw (u16le v)

/-- Modelled from the spec: write a little-endian uint32. -/
def writeUInt32 (ws : WriteStream) (v : Nat) : WriteStream :=
  ws.writeBytesRaw (u32le v)

/-- Modelled from the spec: write a little-endian uint64. -/
def writeUInt64 (ws : WriteStream) (v : Nat) : WriteStream :=
  ws.writeBytesRaw (u64le v)

/-- Modelled from the spec: write one byte. -/
def writeByte (ws : WriteStream) (v : Nat) : WriteStream :=
  ws.writeBytesRaw [v % 256]

/-- Modelled from the spec: write a fixed number of bytes given as hex at
the API boundary, as the bytes themselves. -/
def writeFixedHex (ws : WriteStream) (_len : Nat) (v : List Nat) : WriteStream :=
  ws.writeBytesRaw v

/-- Modelled from the spec: write a string, a 2-byte length then its
bytes. -/
def writeString (ws : WriteStream) (s : List Nat) : WriteStream :=
  (ws.writeUInt16 s.length).writeBytesRaw s

end WriteStream

/-! ## Minimum-length constants (src/src/binary/payload.ts lines 17-70) -/

/-- The minimum length of a payload binary representation. -/
def MIN_PAYLOAD_LENGTH : Nat := TYPE_LENGTH

/-- The minimum length of a milestone payload binary representation. -/
def MIN_MILESTONE_PAYLOAD_LENGTH : Nat :=
  MIN_PAYLOAD_LENGTH +
  UINT32_SIZE +
  UINT64_SIZE +
  MESSAGE_ID_LENGTH +
  MESSAGE_ID_LENGTH +
  MERKLE_PROOF_LENGTH +
  BYTE_SIZE +
  Ed25519.PUBLIC_KEY_SIZE +
  BYTE_SIZE +
  Ed25519.SIGNATURE_SIZE

/-- The minimum length of an indexation payload binary representation; the
data-length field is counted as STRING_LENGTH here. -/
def MIN_INDEXATION_PAYLOAD_LENGTH : Nat :=
  MIN_PAYLOAD_LENGTH +
  STRING_LENGTH +
  1 +
  STRING_LENGTH

/-- The minimum length of a transaction payload binary representation. -/
def MIN_TRANSACTION_PAYLOAD_LENGTH : Nat :=
  MIN_PAYLOAD_LENGTH +
  UINT32_SIZE

/-- The minimum length of a receipt payload binary representation. -/
def MIN_RECEIPT_PAYLOAD_LENGTH : Nat :=
  MIN_PAYLOAD_LENGTH +
  UINT32_SIZE +
  UINT16_SIZE +
  MIN_MIGRATED_FUNDS_LENGTH

/-- The minimum length of a indexation key. -/
def MIN_INDEXATION_KEY_LENGTH : Nat := 1

/-- The maximum length of a indexation key. -/
def MAX_INDEXATION_KEY_LENGTH : Nat := 64

/-! ## External sub-codecs

Modelled from the spec: binary/transaction.ts, binary/unlockBlock.ts and
binary/funds.ts are not in the sources.  Each follows the convention of an
own type or count prefix followed by fixed-order fields. -/

/-- Modelled from the spec: serialize the transaction essence, its own type
byte then a 2-byte count and the content bytes. -/
def serializeTransactionEssence (ws : WriteStream) (e : ITransactionEssence) :
    WriteStream :=
  ((ws.writeByte TRANSACTION_ESSENCE_TYPE).writeUInt16 e.data.length).writeBytesRaw
    e.data

/-- Modelled from the spec: deserialize the transaction essence. -/
def deserializeTransactionEssence (rs : ReadStream) : RRes ITransactionEssence :=
  match readByteP rs with
  | .error e => .error e
  | .ok (t, rs) =>
    if t ≠ TRANSACTION_ESSENCE_TYPE then .error (.essenceTypeMismatch t)
    else
      match readUInt16P rs with
      | .error e => .error e
      | .ok (n, rs) =>
        match readBytesP n rs with
        | .error e => .error e
        | .ok (d, rs) => .ok (⟨d⟩, rs)

/-- Modelled from the spec: serialize the unlock blocks, a 2-byte count then
one byte per block in this model. -/
def serializeUnlockBlocks (ws : WriteStream) (u : List Nat) : WriteStream :=
  u.foldl (fun w b => w.writeByte b) (ws.writeUInt16 u.length)

/-- Modelled from the spec: deserialize the unlock blocks. -/
def deserializeUnlockBlocks (rs : ReadStream) : RRes (List Nat) :=
  match readUInt16P rs with
  | .error e => .error e
  | .ok (n, rs) =>
    match readBytesP n rs with
    | .error e => .error e
    | .ok (u, rs) => .ok (u, rs)

/-- Modelled from the spec: serialize the migrated funds, a 2-byte count
then each fixed-size entry. -/
def serializeFunds (ws : WriteStream) (funds : List IMigratedFunds) :
    WriteStream :=
  funds.foldl (fun w f => w.writeFixedHex MIN_MIGRATED_FUNDS_LENGTH f.bytes)
    (ws.writeUInt16 funds.length)

/-- Modelled from the spec: deserialize the migrated funds. -/
def deserializeFunds (rs : ReadStream) : RRes (List IMigratedFunds) :=
  match readUInt16P rs with
  | .error e => .error e
  | .ok (n, rs) =>
    match readManyP n MIN_MIGRATED_FUNDS_LENGTH rs with
    | .error e => .error e
    | .ok (fs, rs) => .ok (fs.map IMigratedFunds.mk, rs)

/-! ## The variant codecs and the envelope (src/src/binary/payload.ts)

The deserializers for the envelope and the milestone are mutually
recursive; the recursion is made total with a fuel argument, decremented at
each of the two entries, with a dedicated outOfFuel error when it runs
out.  Any fuel of at least three evaluates every payload the serializer can
produce, since the only nesting is a receipt inside a milestone. -/

/-- Deserialize the transaction payload from binary
(payload.ts lines 149-176). -/
def deserializeTransactionPayload (rs : ReadStream) : RRes ITransactionPayload :=
  if ¬ rs.hasRemaining MIN_TRANSACTION_PAYLOAD_LENGTH then
    .error (.transactionMinUnderflow rs.length)
  else
    match readUInt32P rs with
    | .error e => .error e
    | .ok (type, rs) =>
      if type ≠ TRANSACTION_PAYLOAD_TYPE then .error (.transactionTypeMismatch type)
      else
        match peekByteP rs with
        | .error e => .error e
        | .ok (essenceType, rs) =>
          if essenceType = TRANSACTION_ESSENCE_TYPE then
            match deserializeTransactionEssence rs with
            | .error e => .error e
            | .ok (essence, rs) =>
              match deserializeUnlockBlocks rs with
              | .error e => .error e
              | .ok (unlockBlocks, rs) => .ok (⟨essence, unlockBlocks⟩, rs)
          else
            -- the thrown message interpolates the payload type variable
            .error (.unrecognizedEssenceType type)

/-- Serialize the transaction payload to binary
(payload.ts lines 183-193); the type written is the object type field,
which the typed model fixes to the transaction tag, making the
unrecognized-type branch unreachable. -/
def serializeTransactionPayload (ws : WriteStream) (o : ITransactionPayload) :
    WriteStream × Option CodecError :=
  let ws := ws.writeUInt32 TRANSACTION_PAYLOAD_TYPE
  let ws := serializeTransactionEssence ws o.essence
  (serializeUnlockBlocks ws o.unlockBlocks, none)

/-- Deserialize the indexation payload from binary
(payload.ts lines 278-297). -/
def deserializeIndexationPayload (rs : ReadStream) : RRes IIndexationPayload :=
  if ¬ rs.hasRemaining MIN_INDEXATION_PAYLOAD_LENGTH then
    .error (.indexationMinUnderflow rs.length)
  else
    match readUInt32P rs with
    | .error e => .error e
    | .ok (type, rs) =>
      if type ≠ INDEXATION_PAYLOAD_TYPE then .error (.indexationTypeMismatch type)
      else
        match readStringP rs with
        | .error e => .error e
        | .ok (index, rs) =>
          match readUInt32P rs with
          | .error e => .error e
          | .ok (dataLength, rs) =>
            match readFixedHexP dataLength rs with
            | .error e => .error e
            | .ok (data, rs) => .ok (⟨index, data⟩, rs)

/-- Serialize the indexation payload to binary (payload.ts lines 304-323);
the key bounds are checked before anything is written, and an empty data
field (falsy in the source) writes a zero data length. -/
def serializeIndexationPayload (ws : WriteStream) (o : IIndexationPayload) :
    WriteStream × Option CodecError :=
  if o.index.length < MIN_INDEXATION_KEY_LENGTH then
    (ws, some (.indexationKeyTooShort o.index.length))
  else if o.index.length > MAX_INDEXATION_KEY_LENGTH then
    (ws, some (.indexationKeyTooLong o.index.length))
  else
    let ws := ws.writeUInt32 INDEXATION_PAYLOAD_TYPE
    let ws := ws.writeString o.index
    if o.data.isEmpty then
      (ws.writeUInt32 0, none)
    else
      ((ws.writeUInt32 o.data.length).writeFixedHex o.data.length o.data, none)

/-- Deserialize the receipt payload from binary
(payload.ts lines 330-349). -/
def deserializeReceiptPayload (rs : ReadStream) : RRes IReceiptPayload :=
  if ¬ rs.hasRemaining MIN_RECEIPT_PAYLOAD_LENGTH then
    .error (.receiptMinUnderflow rs.length)
  else
    match readUInt32P rs with
    | .error e => .error e
    | .ok (type, rs) =>
      if type ≠ RECEIPT_PAYLOAD_TYPE then .error (.receiptTypeMismatch type)
      else
        match readUInt32P rs with
        | .error e => .error e
        | .ok (migratedAt, rs) =>
          match deserializeFunds rs with
          | .error e => .error e
          | .ok (funds, rs) => .ok (⟨migratedAt, funds⟩, rs)

/-- Serialize the receipt payload to binary (payload.ts lines 356-362). -/
def serializeReceiptPayload (ws : WriteStream) (o : IReceiptPayload) :
    WriteStream × Option CodecError :=
  let ws := ws.writeUInt32 RECEIPT_PAYLOAD_TYPE
  let ws := ws.writeUInt32 o.migratedAt
  (serializeFunds ws o.funds, none)

/-- The tail of the milestone deserializer after the embedded-payload kind
check: the signature count and that many signatures, then the record. -/
def deserializeMilestoneTail (rs : ReadStream) (index timestamp : Nat)
    (parent1MessageId parent2MessageId inclusionMerkleProof : List Nat)
    (publicKeys : List (List Nat)) (receipt : Option IReceiptPayload) :
    RRes IMilestonePayload :=
  match readByteP rs with
  | .error e => .error e
  | .ok (signaturesCount, rs) =>
    match readManyP signaturesCount Ed25519.SIGNATURE_SIZE rs with
    | .error e => .error e
    | .ok (signatures, rs) =>
      .ok (⟨index, timestamp, parent1MessageId, parent2MessageId,
            inclusionMerkleProof, publicKeys, receipt, signatures⟩, rs)

mutual

/-- Deserialize the payload envelope from binary (payload.ts lines 77-110):
check four bytes remain, read the declared length, check that many bytes
remain, return the absent payload on zero length, else peek the type tag
and dispatch. -/
def deserializePayload (fuel : Nat) (rs : ReadStream) : RRes (Option Payload) :=
  match fuel with
  | 0 => .error .outOfFuel
  | fuel + 1 =>
    if ¬ rs.hasRemaining MIN_PAYLOAD_LENGTH then
      .error (.payloadMinUnderflow rs.length)
    else
      match readUInt32P rs with
      | .error e => .error e
      | .ok (payloadLength, rs) =>
        if ¬ rs.hasRemaining payloadLength then
          .error (.payloadLengthExceeds payloadLength rs.unused)
        else
          if payloadLength > 0 then
            match peekUInt32P rs with
            | .error e => .error e
            | .ok (payloadType, rs) =>
              if payloadType = TRANSACTION_PAYLOAD_TYPE then
                match deserializeTransactionPayload rs with
                | .error e => .error e
                | .ok (p, rs) => .ok (some (.transaction p), rs)
              else if payloadType = MILESTONE_PAYLOAD_TYPE then
                match deserializeMilestonePayload fuel rs with
                | .error e => .error e
                | .ok (p, rs) => .ok (some (.milestone p), rs)
              else if payloadType = INDEXATION_PAYLOAD_TYPE then
                match deserializeIndexationPayload rs with
                | .error e => .error e
                | .ok (p, rs) => .ok (some (.indexation p), rs)
              else if payloadType = RECEIPT_PAYLOAD_TYPE then
                match deserializeReceiptPayload rs with
                | .error e => .error e
                | .ok (p, rs) => .ok (some (.receipt p), rs)
              else
                .error (.unrecognizedPayloadType payloadType)
          else
            .ok (none, rs)

/-- Deserialize the milestone payload from binary (payload.ts lines
200-243); the embedded payload is decoded by the recursive envelope call
between the public-key list and the signature count, and must be absent or
a receipt. -/
def deserializeMilestonePayload (fuel : Nat) (rs : ReadStream) :
    RRes IMilestonePayload :=
  match fuel with
  | 0 => .error .outOfFuel
  | fuel + 1 =>
  if ¬ rs.hasRemaining MIN_MILESTONE_PAYLOAD_LENGTH then
    .error (.milestoneMinUnderflow rs.length)
  else
    match readUInt32P rs with
    | .error e => .error e
    | .ok (type, rs) =>
      if type ≠ MILESTONE_PAYLOAD_TYPE then .error (.milestoneTypeMismatch type)
      else
        match readUInt32P rs with
        | .error e => .error e
        | .ok (index, rs) =>
          match readUInt64P rs with
          | .error e => .error e
          | .ok (timestamp, rs) =>
            match readFixedHexP MESSAGE_ID_LENGTH rs with
            | .error e => .error e
            | .ok (parent1MessageId, rs) =>
              match readFixedHexP MESSAGE_ID_LENGTH rs with
              | .error e => .error e
              | .ok (parent2MessageId, rs) =>
                match readFixedHexP MERKLE_PROOF_LENGTH rs with
                | .error e => .error e
                | .ok (inclusionMerkleProof, rs) =>
                  match readByteP rs with
                  | .error e => .error e
                  | .ok (publicKeysCount, rs) =>
                    match readManyP publicKeysCount Ed25519.PUBLIC_KEY_SIZE rs with
                    | .error e => .error e
                    | .ok (publicKeys, rs) =>
                      match deserializePayload fuel rs with
                      | .error e => .error e
                      | .ok (nested, rs) =>
                        match nested with
                        | some (.receipt r) =>
                          deserializeMilestoneTail rs index timestamp
                            parent1MessageId parent2MessageId
                            inclusionMerkleProof publicKeys (some r)
                        | none =>
                          deserializeMilestoneTail rs index timestamp
                            parent1MessageId parent2MessageId
                            inclusionMerkleProof publicKeys none
                        | some _ => .error .milestoneNestedKind

end

/-- The back-patch step closing the envelope (payload.ts lines 138-141): on
success, remember the end position, seek back to the length field, write
the end position minus the start position minus four, and restore the end
position; on a variant error, propagate it with the writer as the variant
left it. -/
def envelopeFinish (payloadLengthWriteIndex : Nat)
    (step : WriteStream × Option CodecError) : WriteStream × Option CodecError :=
  match step with
  | (ws, some e) => (ws, some e)
  | (ws, none) =>
    let endOfPayloadWriteIndex := ws.getWriteIndex
    let ws := ws.setWriteIndex payloadLengthWriteIndex
    let ws := ws.writeUInt32
      (endOfPayloadWriteIndex - payloadLengthWriteIndex - UINT32_SIZE)
    (ws.setWriteIndex endOfPayloadWriteIndex, none)

/-- The recursive envelope call of the milestone serializer, specialized to
the optional-receipt type of the embedded payload so that the two
serializers need not be mutually recursive; the theorem
serializePayload_receiptOpt proves the specialization equal to the full
envelope applied to the optional receipt. -/
def serializeReceiptOptEnvelope (ws : WriteStream)
    (receipt : Option IReceiptPayload) : WriteStream × Option CodecError :=
  let payloadLengthWriteIndex := ws.getWriteIndex
  let ws := ws.writeUInt32 0
  envelopeFinish payloadLengthWriteIndex
    (match receipt with
     | none => (ws, none)
     | some o => serializeReceiptPayload ws o)

/-- Serialize the milestone payload to binary (payload.ts lines 250-271);
the embedded receipt goes through the recursive envelope call between the
public keys and the signature count. -/
def serializeMilestonePayload (ws : WriteStream) (o : IMilestonePayload) :
    WriteStream × Option CodecError :=
  let ws := ws.writeUInt32 MILESTONE_PAYLOAD_TYPE
  let ws := ws.writeUInt32 o.index
  let ws := ws.writeUInt64 o.timestamp
  let ws := ws.writeFixedHex MESSAGE_ID_LENGTH o.parent1MessageId
  let ws := ws.writeFixedHex MESSAGE_ID_LENGTH o.parent2MessageId
  let ws := ws.writeFixedHex MERKLE_PROOF_LENGTH o.inclusionMerkleProof
  let ws := ws.writeByte o.publicKeys.length
  let ws := o.publicKeys.foldl
    (fun w k => w.writeFixedHex Ed25519.PUBLIC_KEY_SIZE k) ws
  match serializeReceiptOptEnvelope ws o.receipt with
  | (ws, some e) => (ws, some e)
  | (ws, none) =>
    let ws := ws.writeByte o.signatures.length
    (o.signatures.foldl
      (fun w s => w.writeFixedHex Ed25519.SIGNATURE_SIZE s) ws, none)

/-- Serialize the payload envelope to binary (payload.ts lines 117-142):
write a placeholder length, dispatch on the payload kind, then back-patch
the length with the end position minus the start position minus four and
restore the end position. -/
def serializePayload (ws : WriteStream) (object : Option Payload) :
    WriteStream × Option CodecError :=
  let payloadLengthWriteIndex := ws.getWriteIndex
  let ws := ws.writeUInt32 0
  envelopeFinish payloadLengthWriteIndex
    (match object with
     | none => (ws, none)
     | some (.transaction o) => serializeTransactionPayload ws o
     | some (.milestone o) => serializeMilestonePayload ws o
     | some (.indexation o) => serializeIndexationPayload ws o
     | some (.receipt o) => serializeReceiptPayload ws o)

/-- The milestone serializer's nested envelope specialization agrees with
the envelope itself on every optional receipt, so serializeMilestonePayload
does call the envelope recursively exactly as the source does. -/
theorem serializePayload_receiptOpt (ws : WriteStream)
    (r : Option IReceiptPayload) :
    serializePayload ws (r.map Payload.receipt) = serializeReceiptOptEnvelope ws r := by
  cases r <;> rfl

/-! ## Byte-level lemmas for the reader primitives

The lemmas use a drop view of the stream: the unread part of the buffer is
the drop of the storage at the read index. -/

theorem drop_next {σ b r : List Nat} {i : Nat}
    (h : σ.drop i = b ++ r) : σ.drop (i + b.length) = r := by
  have h2 := congrArg (List.drop b.length) h
  rw [List.drop_drop, List.drop_left] at h2
  exact h2

theorem drop_view_length {σ b r : List Nat} {i : Nat}
    (h : σ.drop i = b ++ r) (hle : i ≤ σ.length) :
    σ.length = i + b.length + r.length := by
  have h2 : (σ.drop i).length = b.length + r.length := by
    rw [h, List.length_append]
  rw [List.length_drop] at h2
  omega

theorem readBytesP_eq {σ b rest : List Nat} {i n : Nat}
    (hn : b.length = n) (hle : i ≤ σ.length) (h : σ.drop i = b ++ rest) :
    readBytesP n ⟨σ, i⟩ = .ok (b, ⟨σ, i + n⟩) := by
  have hlen := drop_view_length h hle
  unfold readBytesP
  simp only [if_pos (by omega : i + n ≤ σ.length)]
  have htake : (σ.drop i).take n = b := by
    rw [h, ← hn]; exact List.take_left b rest
  simp [htake]

theorem peekBytesP_eq {σ b rest : List Nat} {i n : Nat}
    (hn : b.length = n) (hle : i ≤ σ.length) (h : σ.drop i = b ++ rest) :
    peekBytesP n ⟨σ, i⟩ = .ok (b, ⟨σ, i⟩) := by
  have hlen := drop_view_length h hle
  unfold peekBytesP
  simp only [if_pos (by omega : i + n ≤ σ.length)]
  have htake : (σ.drop i).take n = b := by
    rw [h, ← hn]; exact List.take_left b rest
  simp [htake]

@[simp] theorem u16le_length (v : Nat) : (u16le v).length = 2 := rfl

@[simp] theorem u32le_length (v : Nat) : (u32le v).length = 4 := rfl

@[simp] theorem u64le_length (v : Nat) : (u64le v).length = 8 := rfl

theorem fromLE_u16le {v : Nat} (hv : v < 2 ^ 16) : fromLE (u16le v) = v := by
  simp only [u16le, fromLE, List.foldr]
  omega

theorem fromLE_u32le {v : Nat} (hv : v < 2 ^ 32) : fromLE (u32le v) = v := by
  simp only [u32le, fromLE, List.foldr]
  omega

theorem fromLE_u64le {v : Nat} (hv : v < 2 ^ 64) : fromLE (u64le v) = v := by
  simp only [u64le, fromLE, List.foldr]
  omega

theorem fromLE_single (b : Nat) : fromLE [b] = b := by
  simp [fromLE]

theorem readUInt16P_eq {σ rest : List Nat} {i v : Nat}
    (hv : v < 2 ^ 16) (hle : i ≤ σ.length) (h : σ.drop i = u16le v ++ rest) :
    readUInt16P ⟨σ, i⟩ = .ok (v, ⟨σ, i + 2⟩) := by
  unfold readUInt16P
  rw [readBytesP_eq (u16le_length v) hle h]
  simp [fromLE_u16le hv]

theorem readUInt32P_eq {σ r : List Nat} {i v : Nat}
    (hv : v < 2 ^ 32) (hle : i ≤ σ.length) (h : σ.drop i = u32le v ++ r) :
    readUInt32P ⟨σ, i⟩ = .ok (v, ⟨σ, i + 4⟩) := by
  unfold readUInt32P
  rw [readBytesP_eq (u32le_length v) hle h]
  simp [fromLE_u32le hv]

theorem peekUInt32P_eq {σ r : List Nat} {i v : Nat}
    (hv : v < 2 ^ 32) (hle : i ≤ σ.length) (h : σ.drop i = u32le v ++ r) :
    peekUInt32P ⟨σ, i⟩ = .ok (v, ⟨σ, i⟩) := by
  unfold peekUInt32P
  rw [peekBytesP_eq (u32le_length v) hle h]
  simp [fromLE_u32le hv]

theorem readUInt64P_eq {σ rest : List Nat} {i v : Nat}
    (hv : v < 2 ^ 64) (hle : i ≤ σ.length) (h : σ.drop i = u64le v ++ rest) :
    readUInt64P ⟨σ, i⟩ = .ok (v, ⟨σ, i + 8⟩) := by
  unfold readUInt64P
  rw [readBytesP_eq (u64le_length v) hle h]
  simp [fromLE_u64le hv]

theorem readByteP_eq {σ rest : List Nat} {i b : Nat}
    (hle : i ≤ σ.length) (h : σ.drop i = b :: rest) :
    readByteP ⟨σ, i⟩ = .ok (b, ⟨σ, i + 1⟩) := by
  unfold readByteP
  rw [readBytesP_eq (b := [b]) (n := 1) rfl hle (by simpa using h)]
  simp [fromLE_single]

theorem peekByteP_eq {σ rest : List Nat} {i b : Nat}
    (hle : i ≤ σ.length) (h : σ.drop i = b :: rest) :
    peekByteP ⟨σ, i⟩ = .ok (b, ⟨σ, i⟩) := by
  unfold peekByteP
  rw [peekBytesP_eq (b := [b]) (n := 1) rfl hle (by simpa using h)]
  simp [fromLE_single]

theorem readFixedHexP_eq {σ b rest : List Nat} {i n : Nat}
    (hn : b.length = n) (hle : i ≤ σ.length) (h : σ.drop i = b ++ rest) :
    readFixedHexP n ⟨σ, i⟩ = .ok (b, ⟨σ, i + n⟩) :=
  readBytesP_eq hn hle h

theorem readStringP_eq {σ s rest : List Nat} {i : Nat}
    (hv : s.length < 2 ^ 16) (hle : i ≤ σ.length)
    (h : σ.drop i = u16le s.length ++ s ++ rest) :
    readStringP ⟨σ, i⟩ = .ok (s, ⟨σ, i + 2 + s.length⟩) := by
  unfold readStringP
  rw [readUInt16P_eq hv hle (by rw [h, List.append_assoc])]
  have h2 : σ.drop (i + 2) = s ++ rest := by
    have := drop_next (b := u16le s.length) (r := s ++ rest)
      (by rw [h, List.append_assoc])
    simpa using this
  have hle2 : i + 2 ≤ σ.length := by
    have h3 := drop_view_length (b := u16le s.length) (r := s ++ rest)
      (by rw [h, List.append_assoc]) hle
    rw [u16le_length] at h3
    omega
  simp only []
  rw [readBytesP_eq rfl hle2 h2]

theorem readManyP_eq {σ rest : List Nat} {K : List (List Nat)} {i z : Nat}
    (hsz : ∀ k ∈ K, k.length = z) (hle : i ≤ σ.length)
    (h : σ.drop i = K.flatten ++ rest) :
    readManyP K.length z ⟨σ, i⟩ = .ok (K, ⟨σ, i + K.length * z⟩) := by
  induction K generalizing i with
  | nil => simp [readManyP, h]
  | cons k K ih =>
    have hk : k.length = z := hsz k (by simp)
    have hdrop : σ.drop i = k ++ (K.flatten ++ rest) := by
      simpa [List.append_assoc] using h
    have hle2 : i + z ≤ σ.length := by
      have := drop_view_length hdrop hle
      omega
    have hnext : σ.drop (i + z) = K.flatten ++ rest := by
      have := drop_next hdrop
      rwa [hk] at this
    have harith : i + z + K.length * z = i + (K.length + 1) * z := by
      ring
    simp only [List.length_cons, readManyP]
    rw [readBytesP_eq hk hle hdrop]
    simp [ih (fun x hx => hsz x (by simp [hx])) hle2 hnext, harith]

/-! ## Closed forms of the serializers

Pure byte images of every serializer, with lemmas showing that a serializer
started at the append position extends the buffer by exactly its image. -/

theorem storeAt_append (S bs : List Nat) : storeAt S S.length bs = S ++ bs := by
  unfold storeAt
  rw [List.take_length, List.drop_eq_nil_of_le (by omega), List.append_nil]

theorem writeBytesRaw_append (S bs : List Nat) :
    WriteStream.writeBytesRaw ⟨S, S.length⟩ bs =
      ⟨S ++ bs, (S ++ bs).length⟩ := by
  simp [WriteStream.writeBytesRaw, storeAt_append, List.length_append]

theorem foldl_writeRaw_append (K : List (List Nat)) (S : List Nat) :
    K.foldl (fun (w : WriteStream) k => w.writeBytesRaw k) ⟨S, S.length⟩ =
      ⟨S ++ K.flatten, (S ++ K.flatten).length⟩ := by
  induction K generalizing S with
  | nil => simp
  | cons k K ih =>
    simp only [List.foldl_cons, writeBytesRaw_append, ih, List.flatten_cons,
      List.append_assoc]

theorem foldl_writeRawBytes_append (fs : List IMigratedFunds) (S : List Nat) :
    fs.foldl (fun (w : WriteStream) f => w.writeBytesRaw f.bytes)
        ⟨S, S.length⟩ =
      ⟨S ++ (fs.map IMigratedFunds.bytes).flatten,
        (S ++ (fs.map IMigratedFunds.bytes).flatten).length⟩ := by
  induction fs generalizing S with
  | nil => simp
  | cons f fs ih =>
    simp only [List.foldl_cons, writeBytesRaw_append, ih, List.map_cons,
      List.flatten_cons, List.append_assoc]

theorem foldl_writeByteRaw_append (u : List Nat) (S : List Nat) :
    u.foldl (fun (w : WriteStream) b => w.writeBytesRaw [b % 256])
        ⟨S, S.length⟩ =
      ⟨S ++ u.map (· % 256), (S ++ u.map (· % 256)).length⟩ := by
  induction u generalizing S with
  | nil => simp
  | cons b u ih =>
    simp only [List.foldl_cons, writeBytesRaw_append, ih, List.map_cons,
      List.cons_append, List.append_assoc, List.singleton_append,
      List.nil_append]

/-- Byte image of the modelled transaction essence serializer. -/
def essenceBytes (e : ITransactionEssence) : List Nat :=
  [TRANSACTION_ESSENCE_TYPE % 256] ++ u16le e.data.length ++ e.data

/-- Byte image of the modelled unlock-block serializer. -/
def unlockBlocksBytes (u : List Nat) : List Nat :=
  u16le u.length ++ u.map (· % 256)

/-- Byte image of the modelled migrated-funds serializer. -/
def fundsBytes (fs : List IMigratedFunds) : List Nat :=
  u16le fs.length ++ (fs.map IMigratedFunds.bytes).flatten

/-- Byte image of the transaction payload serializer. -/
def transactionBytes (t : ITransactionPayload) : List Nat :=
  u32le TRANSACTION_PAYLOAD_TYPE ++ essenceBytes t.essence ++
    unlockBlocksBytes t.unlockBlocks

/-- Byte image of the indexation payload serializer; a zero data length is
the image of empty data. -/
def indexationBytes (o : IIndexationPayload) : List Nat :=
  u32le INDEXATION_PAYLOAD_TYPE ++ u16le o.index.length ++ o.index ++
    u32le o.data.length ++ o.data

/-- Byte image of the receipt payload serializer. -/
def receiptBytes (r : IReceiptPayload) : List Nat :=
  u32le RECEIPT_PAYLOAD_TYPE ++ u32le r.migratedAt ++ fundsBytes r.funds

/-- Byte image of the envelope around an optional receipt. -/
def receiptOptEnvBytes : Option IReceiptPayload → List Nat
  | none => u32le 0
  | some r => u32le (receiptBytes r).length ++ receiptBytes r

/-- Byte image of the milestone payload serializer. -/
def milestoneBytes (m : IMilestonePayload) : List Nat :=
  u32le MILESTONE_PAYLOAD_TYPE ++ u32le m.index ++ u64le m.timestamp ++
    m.parent1MessageId ++ m.parent2MessageId ++ m.inclusionMerkleProof ++
    [m.publicKeys.length % 256] ++ m.publicKeys.flatten ++
    receiptOptEnvBytes m.receipt ++
    [m.signatures.length % 256] ++ m.signatures.flatten

/-- Byte image of the body written by the variant codec of a payload. -/
def payloadBodyBytes : Payload → List Nat
  | .transaction t => transactionBytes t
  | .milestone m => milestoneBytes m
  | .indexation o => indexationBytes o
  | .receipt r => receiptBytes r

/-- Byte image of the whole envelope: the back-patched length field then
the body. -/
def payloadBytes : Option Payload → List Nat
  | none => u32le 0
  | some p => u32le (payloadBodyBytes p).length ++ payloadBodyBytes p

theorem serializeTransactionEssence_eq (S : List Nat) (e : ITransactionEssence) :
    serializeTransactionEssence ⟨S, S.length⟩ e =
      ⟨S ++ essenceBytes e, (S ++ essenceBytes e).length⟩ := by
  simp only [serializeTransactionEssence, WriteStream.writeByte,
    WriteStream.writeUInt16, writeBytesRaw_append, essenceBytes,
    List.append_assoc]

theorem serializeUnlockBlocks_eq (S : List Nat) (u : List Nat) :
    serializeUnlockBlocks ⟨S, S.length⟩ u =
      ⟨S ++ unlockBlocksBytes u, (S ++ unlockBlocksBytes u).length⟩ := by
  simp only [serializeUnlockBlocks, WriteStream.writeUInt16,
    WriteStream.writeByte, writeBytesRaw_append, foldl_writeByteRaw_append,
    unlockBlocksBytes, List.append_assoc]

theorem serializeFunds_eq (S : List Nat) (fs : List IMigratedFunds) :
    serializeFunds ⟨S, S.length⟩ fs =
      ⟨S ++ fundsBytes fs, (S ++ fundsBytes fs).length⟩ := by
  simp only [serializeFunds, WriteStream.writeUInt16,
    WriteStream.writeFixedHex, writeBytesRaw_append,
    foldl_writeRawBytes_append, fundsBytes, List.append_assoc]

theorem serializeTransactionPayload_eq (S : List Nat) (t : ITransactionPayload) :
    serializeTransactionPayload ⟨S, S.length⟩ t =
      (⟨S ++ transactionBytes t, (S ++ transactionBytes t).length⟩, none) := by
  simp only [serializeTransactionPayload, WriteStream.writeUInt32,
    writeBytesRaw_append, serializeTransactionEssence_eq,
    serializeUnlockBlocks_eq, transactionBytes, List.append_assoc]

theorem serializeReceiptPayload_eq (S : List Nat) (r : IReceiptPayload) :
    serializeReceiptPayload ⟨S, S.length⟩ r =
      (⟨S ++ receiptBytes r, (S ++ receiptBytes r).length⟩, none) := by
  simp only [serializeReceiptPayload, WriteStream.writeUInt32,
    writeBytesRaw_append, serializeFunds_eq, receiptBytes, List.append_assoc]

theorem serializeIndexationPayload_eq (S : List Nat) (o : IIndexationPayload)
    (h1 : MIN_INDEXATION_KEY_LENGTH ≤ o.index.length)
    (h2 : o.index.length ≤ MAX_INDEXATION_KEY_LENGTH) :
    serializeIndexationPayload ⟨S, S.length⟩ o =
      (⟨S ++ indexationBytes o, (S ++ indexationBytes o).length⟩, none) := by
  unfold serializeIndexationPayload
  rw [if_neg (by omega), if_neg (by omega)]
  by_cases hd : o.data.isEmpty
  · have hdata : o.data = [] := List.isEmpty_iff.mp hd
    simp only [hd, if_true, WriteStream.writeUInt32, WriteStream.writeString,
      WriteStream.writeUInt16, writeBytesRaw_append, indexationBytes, hdata,
      List.append_nil, List.length_nil, List.append_assoc]
    simp
  · simp only [hd, Bool.false_eq_true, if_false, WriteStream.writeUInt32,
      WriteStream.writeString, WriteStream.writeUInt16,
      WriteStream.writeFixedHex, writeBytesRaw_append, indexationBytes,
      List.append_assoc]

theorem envelopeFinish_ok (S body : List Nat) :
    envelopeFinish S.length
      (⟨(S ++ u32le 0) ++ body, ((S ++ u32le 0) ++ body).length⟩, none) =
      (⟨S ++ u32le body.length ++ body,
        (S ++ u32le body.length ++ body).length⟩, none) := by
  unfold envelopeFinish
  simp only [WriteStream.getWriteIndex, WriteStream.setWriteIndex,
    WriteStream.writeUInt32, WriteStream.writeBytesRaw]
  have hval : ((S ++ u32le 0) ++ body).length - S.length - UINT32_SIZE =
      body.length := by
    simp [UINT32_SIZE, List.length_append]
  rw [hval]
  have hassoc : (S ++ u32le 0) ++ body = S ++ (u32le 0 ++ body) :=
    List.append_assoc S (u32le 0) body
  rw [hassoc]
  unfold storeAt
  rw [List.take_left]
  have hd4 : (S ++ (u32le 0 ++ body)).drop (S.length + (u32le body.length).length)
      = body := by
    have h0 : (S ++ (u32le 0 ++ body)).drop S.length = u32le 0 ++ body :=
      List.drop_left S (u32le 0 ++ body)
    have h4 := drop_next (i := S.length) h0
    exact h4
  rw [hd4]
  simp [List.length_append, List.append_assoc]

theorem serializeReceiptOptEnvelope_eq (S : List Nat)
    (r : Option IReceiptPayload) :
    serializeReceiptOptEnvelope ⟨S, S.length⟩ r =
      (⟨S ++ receiptOptEnvBytes r, (S ++ receiptOptEnvBytes r).length⟩,
        none) := by
  cases r with
  | none =>
    unfold serializeReceiptOptEnvelope
    simp only [WriteStream.getWriteIndex, WriteStream.writeUInt32,
      writeBytesRaw_append]
    have h := envelopeFinish_ok S []
    simp only [List.append_nil, List.length_nil] at h
    exact h
  | some rr =>
    unfold serializeReceiptOptEnvelope
    simp only [WriteStream.getWriteIndex, WriteStream.writeUInt32,
      writeBytesRaw_append, serializeReceiptPayload_eq]
    have h := envelopeFinish_ok S (receiptBytes rr)
    simpa [receiptOptEnvBytes, List.append_assoc] using h

theorem serializeMilestonePayload_eq (S : List Nat) (m : IMilestonePayload) :
    serializeMilestonePayload ⟨S, S.length⟩ m =
      (⟨S ++ milestoneBytes m, (S ++ milestoneBytes m).length⟩, none) := by
  unfold serializeMilestonePayload
  simp only [WriteStream.writeUInt32, WriteStream.writeUInt64,
    WriteStream.writeFixedHex, WriteStream.writeByte, writeBytesRaw_append,
    foldl_writeRaw_append, serializeReceiptOptEnvelope_eq,
    foldl_writeRaw_append, milestoneBytes, List.append_assoc]

/-- Whether the envelope serializer succeeds on a value: only the
indexation key bounds can make it fail. -/
def payloadEncodeOk : Option Payload → Bool
  | some (.indexation o) =>
    decide (MIN_INDEXATION_KEY_LENGTH ≤ o.index.length) &&
      decide (o.index.length ≤ MAX_INDEXATION_KEY_LENGTH)
  | _ => true

theorem serializePayload_eq (S : List Nat) (o : Option Payload)
    (hok : payloadEncodeOk o = true) :
    serializePayload ⟨S, S.length⟩ o =
      (⟨S ++ payloadBytes o, (S ++ payloadBytes o).length⟩, none) := by
  cases o with
  | none =>
    unfold serializePayload
    simp only [WriteStream.getWriteIndex, WriteStream.writeUInt32,
      writeBytesRaw_append]
    have h := envelopeFinish_ok S []
    simp only [List.append_nil, List.length_nil] at h
    simpa [payloadBytes] using h
  | some p =>
    cases p with
    | transaction t =>
      unfold serializePayload
      simp only [WriteStream.getWriteIndex, WriteStream.writeUInt32,
        writeBytesRaw_append, serializeTransactionPayload_eq]
      have h := envelopeFinish_ok S (transactionBytes t)
      simpa [payloadBytes, payloadBodyBytes, List.append_assoc] using h
    | milestone m =>
      unfold serializePayload
      simp only [WriteStream.getWriteIndex, WriteStream.writeUInt32,
        writeBytesRaw_append, serializeMilestonePayload_eq]
      have h := envelopeFinish_ok S (milestoneBytes m)
      simpa [payloadBytes, payloadBodyBytes, List.append_assoc] using h
    | indexation i =>
      simp only [payloadEncodeOk, Bool.and_eq_true, decide_eq_true_eq] at hok
      unfold serializePayload
      simp only [WriteStream.getWriteIndex, WriteStream.writeUInt32,
        writeBytesRaw_append, serializeIndexationPayload_eq _ _ hok.1 hok.2]
      have h := envelopeFinish_ok S (indexationBytes i)
      simpa [payloadBytes, payloadBodyBytes, List.append_assoc] using h
    | receipt r =>
      unfold serializePayload
      simp only [WriteStream.getWriteIndex, WriteStream.writeUInt32,
        writeBytesRaw_append, serializeReceiptPayload_eq]
      have h := envelopeFinish_ok S (receiptBytes r)
      simpa [payloadBytes, payloadBodyBytes, List.append_assoc] using h

/-! ## Validity of payload values

The domain of valid payload values, from the data model of the spec:
fixed-size digests, counts that fit their wire fields, an indexation key of
1 to 64 bytes, data within the host string bound, at least one fund,
public key and signature. -/

/-- A valid migrated-funds entry has the fixed entry size. -/
def validMigratedFunds (f : IMigratedFunds) : Bool :=
  f.bytes.length == MIN_MIGRATED_FUNDS_LENGTH

/-- A valid receipt payload. -/
def validReceiptPayload (r : IReceiptPayload) : Bool :=
  decide (r.migratedAt < 2 ^ 32) && decide (1 ≤ r.funds.length) &&
    decide (r.funds.length < 2 ^ 16) && r.funds.all validMigratedFunds

/-- A valid transaction payload. -/
def validTransactionPayload (t : ITransactionPayload) : Bool :=
  decide (t.essence.data.length < 2 ^ 16) &&
    decide (t.unlockBlocks.length < 2 ^ 16) &&
    t.unlockBlocks.all (fun b => decide (b < 256))

/-- A valid indexation payload. -/
def validIndexationPayload (o : IIndexationPayload) : Bool :=
  decide (MIN_INDEXATION_KEY_LENGTH ≤ o.index.length) &&
    decide (o.index.length ≤ MAX_INDEXATION_KEY_LENGTH) &&
    decide (o.data.length < 2 ^ 30)

/-- A valid optional embedded receipt. -/
def validReceiptOpt : Option IReceiptPayload → Bool
  | none => true
  | some r => validReceiptPayload r

/-- A valid milestone payload. -/
def validMilestonePayload (m : IMilestonePayload) : Bool :=
  decide (m.index < 2 ^ 32) && decide (m.timestamp < 2 ^ 64) &&
    (m.parent1MessageId.length == MESSAGE_ID_LENGTH) &&
    (m.parent2MessageId.length == MESSAGE_ID_LENGTH) &&
    (m.inclusionMerkleProof.length == MERKLE_PROOF_LENGTH) &&
    decide (1 ≤ m.publicKeys.length) && decide (m.publicKeys.length ≤ 255) &&
    m.publicKeys.all (fun k => k.length == Ed25519.PUBLIC_KEY_SIZE) &&
    validReceiptOpt m.receipt &&
    decide (1 ≤ m.signatures.length) && decide (m.signatures.length ≤ 255) &&
    m.signatures.all (fun s => s.length == Ed25519.SIGNATURE_SIZE)

/-- A valid payload value. -/
def validPayload : Payload → Bool
  | .transaction t => validTransactionPayload t
  | .milestone m => validMilestonePayload m
  | .indexation o => validIndexationPayload o
  | .receipt r => validReceiptPayload r

/-- A valid optional payload value. -/
def validPayloadOpt : Option Payload → Bool
  | none => true
  | some p => validPayload p

/-! ## Round trip of the deserializers on serialized images -/

theorem hasRemaining_of_le {σ : List Nat} {i n : Nat}
    (h : i + n ≤ σ.length) : ReadStream.hasRemaining ⟨σ, i⟩ n = true := by
  simpa [ReadStream.hasRemaining] using h

theorem hasRemaining_false_of_gt {σ : List Nat} {i n : Nat}
    (h : σ.length < i + n) : ReadStream.hasRemaining ⟨σ, i⟩ n = false := by
  simp [ReadStream.hasRemaining]
  omega

theorem deserializeTransactionEssence_eq {σ r : List Nat}
    {e : ITransactionEssence} {i : Nat}
    (hv : e.data.length < 2 ^ 16) (hle : i ≤ σ.length)
    (h : σ.drop i = essenceBytes e ++ r) :
    deserializeTransactionEssence ⟨σ, i⟩ =
      .ok (e, ⟨σ, i + (essenceBytes e).length⟩) := by
  have h1 : σ.drop i = 0 :: (u16le e.data.length ++ (e.data ++ r)) := by
    simpa [essenceBytes, TRANSACTION_ESSENCE_TYPE] using h
  have hL : (essenceBytes e).length = 3 + e.data.length := by
    simp [essenceBytes]
    omega
  have hlen := drop_view_length (b := essenceBytes e) h hle
  rw [hL] at hlen
  have h2 : σ.drop (i + 1) = u16le e.data.length ++ (e.data ++ r) := by
    simpa using drop_next (b := [(0 : Nat)]) (by simpa using h1)
  have h3 : σ.drop (i + 1 + 2) = e.data ++ r := by
    simpa using drop_next (b := u16le e.data.length) h2
  have r1 := readByteP_eq (b := 0) hle h1
  have r2 := readUInt16P_eq (v := e.data.length) hv (by omega) h2
  have r3 := readBytesP_eq (b := e.data) rfl (by omega) h3
  unfold deserializeTransactionEssence
  rw [r1]
  simp only [TRANSACTION_ESSENCE_TYPE, ne_eq, not_true_eq_false, if_false,
    reduceCtorEq, reduceIte]
  rw [r2]
  simp only []
  rw [r3]
  simp only [hL]
  congr 1
  simp
  omega

theorem map_mod_eq_self {u : List Nat} (h : ∀ b ∈ u, b < 256) :
    u.map (· % 256) = u := by
  induction u with
  | nil => rfl
  | cons b u ih =>
    simp only [List.map_cons, Nat.mod_eq_of_lt (h b (by simp)),
      ih (fun x hx => h x (by simp [hx]))]

theorem flatten_length_const {K : List (List Nat)} {n : Nat}
    (h : ∀ x ∈ K, x.length = n) : K.flatten.length = K.length * n := by
  induction K with
  | nil => simp
  | cons k K ih =>
    simp only [List.flatten_cons, List.length_append, h k (by simp),
      ih (fun x hx => h x (by simp [hx])), List.length_cons]
    ring

theorem deserializeUnlockBlocks_eq {σ rest : List Nat} {u : List Nat} {i : Nat}
    (hn : u.length < 2 ^ 16) (hb : ∀ b ∈ u, b < 256) (hle : i ≤ σ.length)
    (h : σ.drop i = unlockBlocksBytes u ++ rest) :
    deserializeUnlockBlocks ⟨σ, i⟩ =
      .ok (u, ⟨σ, i + (unlockBlocksBytes u).length⟩) := by
  have hmap : (u.map (· % 256)).length = u.length := List.length_map u _
  have hL : (unlockBlocksBytes u).length = 2 + u.length := by
    simp [unlockBlocksBytes]
  have hlen := drop_view_length h hle
  rw [hL] at hlen
  have h1 : σ.drop i = u16le u.length ++ (u.map (· % 256) ++ rest) := by
    simpa [unlockBlocksBytes, List.append_assoc] using h
  have h2 : σ.drop (i + 2) = u.map (· % 256) ++ rest := by
    simpa using drop_next (b := u16le u.length) h1
  have r1 := readUInt16P_eq (v := u.length) hn hle h1
  have r2 := readBytesP_eq (b := u.map (· % 256)) hmap (by omega) h2
  unfold deserializeUnlockBlocks
  rw [r1]
  simp only []
  rw [r2, map_mod_eq_self hb, hL, Nat.add_assoc]

theorem map_mk_bytes_eq_self (fs : List IMigratedFunds) :
    (fs.map IMigratedFunds.bytes).map IMigratedFunds.mk = fs := by
  induction fs with
  | nil => rfl
  | cons f fs ih => simp only [List.map_cons, ih]

theorem deserializeFunds_eq {σ rest : List Nat} {fs : List IMigratedFunds}
    {i : Nat} (hn : fs.length < 2 ^ 16)
    (hsz : ∀ f ∈ fs, f.bytes.length = MIN_MIGRATED_FUNDS_LENGTH)
    (hle : i ≤ σ.length) (h : σ.drop i = fundsBytes fs ++ rest) :
    deserializeFunds ⟨σ, i⟩ = .ok (fs, ⟨σ, i + (fundsBytes fs).length⟩) := by
  have hflat := flatten_length_const (K := fs.map IMigratedFunds.bytes)
    (n := MIN_MIGRATED_FUNDS_LENGTH) (fun x hx => by
      obtain ⟨f, hf, hfx⟩ := List.mem_map.mp hx
      rw [← hfx]; exact hsz f hf)
  rw [List.length_map] at hflat
  have hL : (fundsBytes fs).length = 2 + fs.length * MIN_MIGRATED_FUNDS_LENGTH
      := by simp [fundsBytes, hflat]
  have hlen := drop_view_length h hle
  rw [hL] at hlen
  have h1 : σ.drop i = u16le fs.length ++
      ((fs.map IMigratedFunds.bytes).flatten ++ rest) := by
    simpa [fundsBytes, List.append_assoc] using h
  have h2 : σ.drop (i + 2) = (fs.map IMigratedFunds.bytes).flatten ++ rest := by
    simpa using drop_next (b := u16le fs.length) h1
  have r1 := readUInt16P_eq (v := fs.length) hn hle h1
  have r2 := readManyP_eq (K := fs.map IMigratedFunds.bytes)
    (z := MIN_MIGRATED_FUNDS_LENGTH)
    (fun x hx => by
      obtain ⟨f, hf, hfx⟩ := List.mem_map.mp hx
      rw [← hfx]; exact hsz f hf) (by omega) h2
  rw [List.length_map] at r2
  unfold deserializeFunds
  rw [r1]
  simp only []
  rw [r2]
  simp only [map_mk_bytes_eq_self, hL, Nat.add_assoc]

theorem transactionBytes_length (t : ITransactionPayload) :
    (transactionBytes t).length =
      9 + t.essence.data.length + t.unlockBlocks.length := by
  simp [transactionBytes, essenceBytes, unlockBlocksBytes]
  omega

theorem deserializeTransactionPayload_eq {σ rest : List Nat}
    {t : ITransactionPayload} {i : Nat}
    (hval : validTransactionPayload t = true) (hle : i ≤ σ.length)
    (h : σ.drop i = transactionBytes t ++ rest) :
    deserializeTransactionPayload ⟨σ, i⟩ =
      .ok (t, ⟨σ, i + (transactionBytes t).length⟩) := by
  simp only [validTransactionPayload, Bool.and_eq_true, decide_eq_true_eq,
    List.all_eq_true] at hval
  obtain ⟨⟨hd, hu1⟩, hu2⟩ := hval
  have hu2' : ∀ b ∈ t.unlockBlocks, b < 256 := fun b hb => by
    simpa using hu2 b hb
  have hlen := drop_view_length h hle
  rw [transactionBytes_length] at hlen
  have h1 : σ.drop i = u32le TRANSACTION_PAYLOAD_TYPE ++
      (essenceBytes t.essence ++ (unlockBlocksBytes t.unlockBlocks ++ rest))
      := by simpa [transactionBytes, List.append_assoc] using h
  have h2 : σ.drop (i + 4) =
      essenceBytes t.essence ++ (unlockBlocksBytes t.unlockBlocks ++ rest)
      := by simpa using drop_next (b := u32le TRANSACTION_PAYLOAD_TYPE) h1
  have h2' : σ.drop (i + 4) = 0 ::
      (u16le t.essence.data.length ++ (t.essence.data ++
        (unlockBlocksBytes t.unlockBlocks ++ rest))) := by
    simpa [essenceBytes, TRANSACTION_ESSENCE_TYPE, List.append_assoc] using h2
  have hrem : ReadStream.hasRemaining ⟨σ, i⟩ MIN_TRANSACTION_PAYLOAD_LENGTH
      = true := by
    apply hasRemaining_of_le
    have hM : MIN_TRANSACTION_PAYLOAD_LENGTH = 8 := rfl
    omega
  have r1 := readUInt32P_eq (v := TRANSACTION_PAYLOAD_TYPE)
    (by simp [TRANSACTION_PAYLOAD_TYPE]) hle h1
  have r2 := peekByteP_eq (b := 0) (by omega) h2'
  have r3 := deserializeTransactionEssence_eq (r :=
    unlockBlocksBytes t.unlockBlocks ++ rest) hd (by omega) h2
  have hE : (essenceBytes t.essence).length = 3 + t.essence.data.length := by
    simp [essenceBytes]
    omega
  have h3 : σ.drop (i + 4 + (essenceBytes t.essence).length) =
      unlockBlocksBytes t.unlockBlocks ++ rest := drop_next h2
  have r4 := deserializeUnlockBlocks_eq hu1 hu2' (by omega) h3
  unfold deserializeTransactionPayload
  rw [hrem]
  simp only [not_true_eq_false, if_false, Bool.false_eq_true, reduceIte]
  rw [r1]
  simp only [TRANSACTION_PAYLOAD_TYPE, ne_eq, not_true_eq_false, if_false,
    reduceCtorEq, reduceIte]
  rw [r2]
  simp only [TRANSACTION_ESSENCE_TYPE, reduceIte]
  rw [r3]
  simp only []
  rw [r4]
  have hidx : i + 4 + (essenceBytes t.essence).length +
      (unlockBlocksBytes t.unlockBlocks).length =
      i + (transactionBytes t).length := by
    rw [transactionBytes_length, hE]
    simp [unlockBlocksBytes]
    omega
  rw [hidx]

theorem indexationBytes_length (o : IIndexationPayload) :
    (indexationBytes o).length = 10 + o.index.length + o.data.length := by
  simp [indexationBytes]
  omega

theorem deserializeIndexationPayload_eq {σ rest : List Nat}
    {o : IIndexationPayload} {i : Nat}
    (hval : validIndexationPayload o = true) (hle : i ≤ σ.length)
    (h : σ.drop i = indexationBytes o ++ rest) :
    deserializeIndexationPayload ⟨σ, i⟩ =
      .ok (o, ⟨σ, i + (indexationBytes o).length⟩) := by
  simp only [validIndexationPayload, Bool.and_eq_true, decide_eq_true_eq]
    at hval
  obtain ⟨⟨hi1, hi2⟩, hdata⟩ := hval
  have hM1 : MIN_INDEXATION_KEY_LENGTH = 1 := rfl
  have hM2 : MAX_INDEXATION_KEY_LENGTH = 64 := rfl
  have hlen := drop_view_length h hle
  rw [indexationBytes_length] at hlen
  have h1 : σ.drop i = u32le INDEXATION_PAYLOAD_TYPE ++
      (u16le o.index.length ++ (o.index ++
        (u32le o.data.length ++ (o.data ++ rest)))) := by
    simpa [indexationBytes, List.append_assoc] using h
  have h2 : σ.drop (i + 4) = u16le o.index.length ++ o.index ++
      (u32le o.data.length ++ (o.data ++ rest)) := by
    have := drop_next (b := u32le INDEXATION_PAYLOAD_TYPE) h1
    simpa [List.append_assoc] using this
  have h3 : σ.drop (i + 4 + 2 + o.index.length) =
      u32le o.data.length ++ (o.data ++ rest) := by
    have h2' : σ.drop (i + 4) = (u16le o.index.length ++ o.index) ++
        (u32le o.data.length ++ (o.data ++ rest)) := by
      simpa [List.append_assoc] using h2
    have h4 := drop_next h2'
    have hl2 : (u16le o.index.length ++ o.index).length =
        2 + o.index.length := by simp
    rw [hl2] at h4
    rwa [show i + 4 + (2 + o.index.length) = i + 4 + 2 + o.index.length
      by omega] at h4
  have h4 : σ.drop (i + 4 + 2 + o.index.length + 4) = o.data ++ rest := by
    simpa using drop_next (b := u32le o.data.length) h3
  have hrem : ReadStream.hasRemaining ⟨σ, i⟩ MIN_INDEXATION_PAYLOAD_LENGTH
      = true := by
    apply hasRemaining_of_le
    have hM : MIN_INDEXATION_PAYLOAD_LENGTH = 9 := rfl
    omega
  have r1 := readUInt32P_eq (v := INDEXATION_PAYLOAD_TYPE)
    (by simp [INDEXATION_PAYLOAD_TYPE]) hle h1
  have r2 := readStringP_eq (s := o.index) (by omega) (by omega) h2
  have r3 := readUInt32P_eq (v := o.data.length) (by omega) (by omega) h3
  have r4 := readFixedHexP_eq (b := o.data) rfl (by omega) h4
  unfold deserializeIndexationPayload
  rw [hrem]
  simp only [not_true_eq_false, if_false, Bool.false_eq_true, reduceIte]
  rw [r1]
  simp only [INDEXATION_PAYLOAD_TYPE, ne_eq, not_true_eq_false, if_false,
    reduceCtorEq, reduceIte]
  rw [r2]
  simp only []
  rw [r3]
  simp only []
  rw [r4]
  have hidx : i + 4 + 2 + o.index.length + 4 + o.data.length =
      i + (indexationBytes o).length := by
    rw [indexationBytes_length]
    omega
  rw [hidx]

theorem receiptBytes_length (r : IReceiptPayload)
    (hsz : ∀ f ∈ r.funds, f.bytes.length = MIN_MIGRATED_FUNDS_LENGTH) :
    (receiptBytes r).length =
      10 + r.funds.length * MIN_MIGRATED_FUNDS_LENGTH := by
  have hflat := flatten_length_const (K := r.funds.map IMigratedFunds.bytes)
    (n := MIN_MIGRATED_FUNDS_LENGTH) (fun x hx => by
      obtain ⟨f, hf, hfx⟩ := List.mem_map.mp hx
      rw [← hfx]; exact hsz f hf)
  rw [List.length_map] at hflat
  simp [receiptBytes, fundsBytes, hflat]
  omega

theorem deserializeReceiptPayload_eq {σ rest : List Nat}
    {r : IReceiptPayload} {i : Nat}
    (hval : validReceiptPayload r = true) (hle : i ≤ σ.length)
    (h : σ.drop i = receiptBytes r ++ rest) :
    deserializeReceiptPayload ⟨σ, i⟩ =
      .ok (r, ⟨σ, i + (receiptBytes r).length⟩) := by
  simp only [validReceiptPayload, Bool.and_eq_true, decide_eq_true_eq,
    List.all_eq_true] at hval
  obtain ⟨⟨⟨hm, hf1⟩, hf2⟩, hf3⟩ := hval
  have hsz : ∀ f ∈ r.funds, f.bytes.length = MIN_MIGRATED_FUNDS_LENGTH :=
    fun f hf => by simpa [validMigratedFunds] using hf3 f hf
  have hlen := drop_view_length h hle
  rw [receiptBytes_length r hsz] at hlen
  have h1 : σ.drop i = u32le RECEIPT_PAYLOAD_TYPE ++
      (u32le r.migratedAt ++ (fundsBytes r.funds ++ rest)) := by
    simpa [receiptBytes, List.append_assoc] using h
  have h2 : σ.drop (i + 4) = u32le r.migratedAt ++
      (fundsBytes r.funds ++ rest) := by
    simpa using drop_next (b := u32le RECEIPT_PAYLOAD_TYPE) h1
  have h3 : σ.drop (i + 4 + 4) = fundsBytes r.funds ++ rest := by
    simpa using drop_next (b := u32le r.migratedAt) h2
  have hrem : ReadStream.hasRemaining ⟨σ, i⟩ MIN_RECEIPT_PAYLOAD_LENGTH
      = true := by
    apply hasRemaining_of_le
    have hM : MIN_RECEIPT_PAYLOAD_LENGTH = 100 := rfl
    have hE : MIN_MIGRATED_FUNDS_LENGTH = 90 := rfl
    rw [hE] at hlen
    have h90 : 1 * 90 ≤ r.funds.length * 90 :=
      Nat.mul_le_mul_right 90 hf1
    omega
  have r1 := readUInt32P_eq (v := RECEIPT_PAYLOAD_TYPE)
    (by simp [RECEIPT_PAYLOAD_TYPE]) hle h1
  have r2 := readUInt32P_eq (v := r.migratedAt) hm (by omega) h2
  have r3 := deserializeFunds_eq hf2 hsz (by omega) h3
  unfold deserializeReceiptPayload
  rw [hrem]
  simp only [not_true_eq_false, if_false, Bool.false_eq_true, reduceIte]
  rw [r1]
  simp only [RECEIPT_PAYLOAD_TYPE, ne_eq, not_true_eq_false, if_false,
    reduceCtorEq, reduceIte]
  rw [r2]
  simp only []
  rw [r3]
  have hidx : i + 4 + 4 + (fundsBytes r.funds).length =
      i + (receiptBytes r).length := by
    simp [receiptBytes, List.length_append]
    omega
  rw [hidx]

theorem receiptBytes_length_bound (r : IReceiptPayload)
    (hval : validReceiptPayload r = true) :
    0 < (receiptBytes r).length ∧ (receiptBytes r).length < 2 ^ 32 := by
  simp only [validReceiptPayload, Bool.and_eq_true, decide_eq_true_eq,
    List.all_eq_true] at hval
  obtain ⟨⟨⟨hm, hf1⟩, hf2⟩, hf3⟩ := hval
  have hsz : ∀ f ∈ r.funds, f.bytes.length = MIN_MIGRATED_FUNDS_LENGTH :=
    fun f hf => by simpa [validMigratedFunds] using hf3 f hf
  rw [receiptBytes_length r hsz]
  have hE : MIN_MIGRATED_FUNDS_LENGTH = 90 := rfl
  rw [hE]
  constructor
  · omega
  · have : r.funds.length * 90 ≤ 65536 * 90 :=
      Nat.mul_le_mul_right 90 (by omega)
    omega

theorem deserializePayload_receiptOpt_eq {σ rest : List Nat}
    {r : Option IReceiptPayload} {i f : Nat}
    (hval : validReceiptOpt r = true) (hle : i ≤ σ.length)
    (h : σ.drop i = receiptOptEnvBytes r ++ rest) :
    deserializePayload (f + 1) ⟨σ, i⟩ =
      .ok (r.map Payload.receipt, ⟨σ, i + (receiptOptEnvBytes r).length⟩) := by
  cases r with
  | none =>
    have h1 : σ.drop i = u32le 0 ++ rest := by
      simpa [receiptOptEnvBytes] using h
    have hlen := drop_view_length h1 hle
    rw [u32le_length] at hlen
    have hrem : ReadStream.hasRemaining ⟨σ, i⟩ MIN_PAYLOAD_LENGTH = true := by
      apply hasRemaining_of_le
      have : MIN_PAYLOAD_LENGTH = 4 := rfl
      omega
    have hrem0 : ReadStream.hasRemaining ⟨σ, i + 4⟩ 0 = true :=
      hasRemaining_of_le (by omega)
    have r1 := readUInt32P_eq (v := 0) (by norm_num) hle h1
    unfold deserializePayload
    rw [hrem]
    simp only [not_true_eq_false, if_false, Bool.false_eq_true, reduceIte]
    rw [r1]
    simp only []
    rw [hrem0]
    simp [receiptOptEnvBytes]
  | some rr =>
    have hvr : validReceiptPayload rr = true := by
      simpa [validReceiptOpt] using hval
    obtain ⟨hpos, h32⟩ := receiptBytes_length_bound rr hvr
    have h1 : σ.drop i = u32le (receiptBytes rr).length ++
        (receiptBytes rr ++ rest) := by
      simpa [receiptOptEnvBytes, List.append_assoc] using h
    have hlen := drop_view_length h1 hle
    rw [u32le_length, List.length_append] at hlen
    have h2 : σ.drop (i + 4) = receiptBytes rr ++ rest := by
      simpa using drop_next (b := u32le (receiptBytes rr).length) h1
    have h2' : σ.drop (i + 4) = u32le RECEIPT_PAYLOAD_TYPE ++
        (u32le rr.migratedAt ++ (fundsBytes rr.funds ++ rest)) := by
      simpa [receiptBytes, List.append_assoc] using h2
    have hrem : ReadStream.hasRemaining ⟨σ, i⟩ MIN_PAYLOAD_LENGTH = true := by
      apply hasRemaining_of_le
      have : MIN_PAYLOAD_LENGTH = 4 := rfl
      omega
    have hremL : ReadStream.hasRemaining ⟨σ, i + 4⟩ (receiptBytes rr).length
        = true := hasRemaining_of_le (by omega)
    have r1 := readUInt32P_eq (v := (receiptBytes rr).length) h32 hle h1
    have r2 := peekUInt32P_eq (v := RECEIPT_PAYLOAD_TYPE)
      (by norm_num [RECEIPT_PAYLOAD_TYPE]) (by omega) h2'
    have r3 := deserializeReceiptPayload_eq hvr (by omega) h2
    unfold deserializePayload
    rw [hrem]
    simp only [not_true_eq_false, if_false, Bool.false_eq_true, reduceIte]
    rw [r1]
    simp only []
    rw [hremL]
    simp only [not_true_eq_false, if_false, Bool.false_eq_true, reduceIte,
      gt_iff_lt, hpos, if_true]
    rw [r2]
    simp only [RECEIPT_PAYLOAD_TYPE, TRANSACTION_PAYLOAD_TYPE,
      MILESTONE_PAYLOAD_TYPE, INDEXATION_PAYLOAD_TYPE, reduceCtorEq,
      reduceIte]
    rw [r3]
    have hidx : i + 4 + (receiptBytes rr).length =
        i + (receiptOptEnvBytes (some rr)).length := by
      simp [receiptOptEnvBytes]
      omega
    rw [hidx]
    simp

theorem deserializeMilestoneTail_eq {σ rest : List Nat}
    {g : List (List Nat)} {j : Nat}
    (hs1 : g.length ≤ 255)
    (hs2 : ∀ s ∈ g, s.length = Ed25519.SIGNATURE_SIZE)
    (hle : j ≤ σ.length)
    (h : σ.drop j = (g.length % 256) :: (g.flatten ++ rest))
    (idx ts : Nat) (p1 p2 pf : List Nat) (keys : List (List Nat))
    (c : Option IReceiptPayload) :
    deserializeMilestoneTail ⟨σ, j⟩ idx ts p1 p2 pf keys c =
      .ok (⟨idx, ts, p1, p2, pf, keys, c, g⟩,
        ⟨σ, j + 1 + g.length * Ed25519.SIGNATURE_SIZE⟩) := by
  have hmod : g.length % 256 = g.length := Nat.mod_eq_of_lt (by omega)
  have hlen := drop_view_length (b := [g.length % 256])
    (by simpa using h) hle
  simp only [List.length_singleton] at hlen
  have h1 : σ.drop (j + 1) = g.flatten ++ rest := by
    simpa using drop_next (b := [g.length % 256]) (by simpa using h)
  have r1 := readByteP_eq (b := g.length % 256) hle h
  have r2 := readManyP_eq (K := g) (z := Ed25519.SIGNATURE_SIZE) hs2
    (by omega) h1
  unfold deserializeMilestoneTail
  rw [r1]
  simp only [hmod]
  rw [r2]

theorem deserializeMilestonePayload_eq {σ rest : List Nat}
    {m : IMilestonePayload} {i f : Nat}
    (hval : validMilestonePayload m = true) (hle : i ≤ σ.length)
    (h : σ.drop i = milestoneBytes m ++ rest) :
    deserializeMilestonePayload (f + 2) ⟨σ, i⟩ =
      .ok (m, ⟨σ, i + (milestoneBytes m).length⟩) := by
  simp only [validMilestonePayload, Bool.and_eq_true, decide_eq_true_eq,
    List.all_eq_true, beq_iff_eq] at hval
  obtain ⟨⟨⟨⟨⟨⟨⟨⟨⟨⟨⟨hmi, hts⟩, hp1⟩, hp2⟩, hpf⟩, hk1⟩, hk2⟩, hkall⟩,
    hrcpt⟩, hs1⟩, hs2⟩, hsall⟩ := hval
  have hp1' : m.parent1MessageId.length = 32 := by
    simpa [MESSAGE_ID_LENGTH] using hp1
  have hp2' : m.parent2MessageId.length = 32 := by
    simpa [MESSAGE_ID_LENGTH] using hp2
  have hpf' : m.inclusionMerkleProof.length = 32 := by
    simpa [MERKLE_PROOF_LENGTH] using hpf
  have hkall' : ∀ k ∈ m.publicKeys, k.length = 32 := fun k hk => by
    simpa [Ed25519.PUBLIC_KEY_SIZE] using hkall k hk
  have hsall' : ∀ s ∈ m.signatures, s.length = Ed25519.SIGNATURE_SIZE :=
    fun s hs => by simpa using hsall s hs
  have hkflat : m.publicKeys.flatten.length = m.publicKeys.length * 32 :=
    flatten_length_const hkall'
  have hsflat : m.signatures.flatten.length = m.signatures.length * 64 :=
    flatten_length_const (fun s hs => by
      simpa [Ed25519.SIGNATURE_SIZE] using hsall' s hs)
  have hE4 : 4 ≤ (receiptOptEnvBytes m.receipt).length := by
    cases m.receipt <;> simp [receiptOptEnvBytes]
  have hLms : (milestoneBytes m).length = 114 + m.publicKeys.length * 32 +
      (receiptOptEnvBytes m.receipt).length + m.signatures.length * 64 := by
    simp [milestoneBytes, hp1', hp2', hpf', hkflat, hsflat]
    omega
  have hlen := drop_view_length h hle
  rw [hLms] at hlen
  have hd0 : σ.drop i = u32le 1 ++ (u32le m.index ++ (u64le m.timestamp ++
      (m.parent1MessageId ++ (m.parent2MessageId ++
      (m.inclusionMerkleProof ++ ([m.publicKeys.length % 256] ++
      (m.publicKeys.flatten ++ (receiptOptEnvBytes m.receipt ++
      ([m.signatures.length % 256] ++ (m.signatures.flatten ++
        rest)))))))))) := by
    simpa [milestoneBytes, MILESTONE_PAYLOAD_TYPE, List.append_assoc] using h
  have hd1 := drop_next hd0
  rw [u32le_length] at hd1
  have hd2 := drop_next hd1
  rw [u32le_length] at hd2
  have hd3 := drop_next hd2
  rw [u64le_length] at hd3
  have hd4 := drop_next hd3
  rw [hp1'] at hd4
  have hd5 := drop_next hd4
  rw [hp2'] at hd5
  have hd6 := drop_next hd5
  rw [hpf'] at hd6
  have hd7 := drop_next hd6
  simp only [List.length_singleton] at hd7
  have hd8 := drop_next hd7
  rw [hkflat] at hd8
  have hd9' : σ.drop (i + 4 + 4 + 8 + 32 + 32 + 32 + 1 +
      m.publicKeys.length * 32) = receiptOptEnvBytes m.receipt ++
      ([m.signatures.length % 256] ++ (m.signatures.flatten ++ rest)) := hd8
  have hd10 := drop_next hd9'
  have hd10' : σ.drop (i + 4 + 4 + 8 + 32 + 32 + 32 + 1 +
      m.publicKeys.length * 32 + (receiptOptEnvBytes m.receipt).length) =
      (m.signatures.length % 256) :: (m.signatures.flatten ++ rest) := by
    simpa using hd10
  have hrem : ReadStream.hasRemaining ⟨σ, i⟩ MIN_MILESTONE_PAYLOAD_LENGTH
      = true := by
    apply hasRemaining_of_le
    have hMM : MIN_MILESTONE_PAYLOAD_LENGTH = 210 := rfl
    have hk32 : 1 * 32 ≤ m.publicKeys.length * 32 :=
      Nat.mul_le_mul_right 32 hk1
    have hs64 : 1 * 64 ≤ m.signatures.length * 64 :=
      Nat.mul_le_mul_right 64 hs1
    omega
  have r1 := readUInt32P_eq (v := 1) (by norm_num) hle hd0
  have r2 := readUInt32P_eq (v := m.index) hmi (by omega) hd1
  have r3 := readUInt64P_eq (v := m.timestamp) hts (by omega) hd2
  have r4 := readFixedHexP_eq (b := m.parent1MessageId) hp1' (by omega) hd3
  have r5 := readFixedHexP_eq (b := m.parent2MessageId) hp2' (by omega) hd4
  have r6 := readFixedHexP_eq (b := m.inclusionMerkleProof) hpf'
    (by omega) hd5
  have r7 := readByteP_eq (b := m.publicKeys.length % 256) (by omega) hd6
  have hkmod : m.publicKeys.length % 256 = m.publicKeys.length :=
    Nat.mod_eq_of_lt (by omega)
  have r8 := readManyP_eq (K := m.publicKeys) (z := 32) hkall'
    (by omega) hd7
  have r9 := deserializePayload_receiptOpt_eq (r := m.receipt)
    (f := f) hrcpt (by omega) hd9'
  have rT := deserializeMilestoneTail_eq (g := m.signatures) hs2 hsall'
    (by omega) hd10' m.index m.timestamp m.parent1MessageId
    m.parent2MessageId m.inclusionMerkleProof m.publicKeys
  unfold deserializeMilestonePayload
  rw [hrem]
  simp only [not_true_eq_false, if_false, Bool.false_eq_true, reduceIte,
    MESSAGE_ID_LENGTH, MERKLE_PROOF_LENGTH, Ed25519.PUBLIC_KEY_SIZE]
  rw [r1]
  simp only [MILESTONE_PAYLOAD_TYPE, ne_eq, not_true_eq_false, if_false,
    reduceCtorEq, reduceIte]
  rw [r2]
  simp only []
  rw [r3]
  simp only []
  rw [r4]
  simp only []
  rw [r5]
  simp only []
  rw [r6]
  simp only []
  rw [r7]
  simp only [hkmod]
  rw [r8]
  simp only []
  rw [r9]
  simp only []
  cases hrc : m.receipt with
  | none =>
    simp only [Option.map]
    rw [← hrc]
    rw [rT (c := m.receipt)]
    have hidx : i + 4 + 4 + 8 + 32 + 32 + 32 + 1 +
        m.publicKeys.length * 32 + (receiptOptEnvBytes m.receipt).length +
        1 + m.signatures.length * Ed25519.SIGNATURE_SIZE =
        i + (milestoneBytes m).length := by
      have hS : Ed25519.SIGNATURE_SIZE = 64 := rfl
      rw [hLms, hS]
      omega
    rw [hidx]
  | some rr =>
    simp only [Option.map]
    rw [← hrc]
    rw [rT (c := m.receipt)]
    have hidx : i + 4 + 4 + 8 + 32 + 32 + 32 + 1 +
        m.publicKeys.length * 32 + (receiptOptEnvBytes m.receipt).length +
        1 + m.signatures.length * Ed25519.SIGNATURE_SIZE =
        i + (milestoneBytes m).length := by
      have hS : Ed25519.SIGNATURE_SIZE = 64 := rfl
      rw [hLms, hS]
      omega
    rw [hidx]

theorem milestoneBytes_length_of_valid (m : IMilestonePayload)
    (hval : validMilestonePayload m = true) :
    (milestoneBytes m).length = 114 + m.publicKeys.length * 32 +
      (receiptOptEnvBytes m.receipt).length + m.signatures.length * 64 := by
  simp only [validMilestonePayload, Bool.and_eq_true, decide_eq_true_eq,
    List.all_eq_true, beq_iff_eq] at hval
  obtain ⟨⟨⟨⟨⟨⟨⟨⟨⟨⟨⟨_, _⟩, hp1⟩, hp2⟩, hpf⟩, _⟩, _⟩, hkall⟩,
    _⟩, _⟩, _⟩, hsall⟩ := hval
  have hp1' : m.parent1MessageId.length = 32 := by
    simpa [MESSAGE_ID_LENGTH] using hp1
  have hp2' : m.parent2MessageId.length = 32 := by
    simpa [MESSAGE_ID_LENGTH] using hp2
  have hpf' : m.inclusionMerkleProof.length = 32 := by
    simpa [MERKLE_PROOF_LENGTH] using hpf
  have hkflat : m.publicKeys.flatten.length = m.publicKeys.length * 32 :=
    flatten_length_const (fun k hk => by
      simpa [Ed25519.PUBLIC_KEY_SIZE] using hkall k hk)
  have hsflat : m.signatures.flatten.length = m.signatures.length * 64 :=
    flatten_length_const (fun s hs => by
      simpa [Ed25519.SIGNATURE_SIZE] using hsall s hs)
  simp [milestoneBytes, hp1', hp2', hpf', hkflat, hsflat]
  omega

theorem receiptOptEnvBytes_bound (r : Option IReceiptPayload)
    (hval : validReceiptOpt r = true) :
    4 ≤ (receiptOptEnvBytes r).length ∧
      (receiptOptEnvBytes r).length ≤ 2 ^ 23 := by
  cases r with
  | none => simp [receiptOptEnvBytes]
  | some rr =>
    have hvr : validReceiptPayload rr = true := by
      simpa [validReceiptOpt] using hval
    simp only [validReceiptPayload, Bool.and_eq_true, decide_eq_true_eq,
      List.all_eq_true] at hvr
    obtain ⟨⟨⟨_, _⟩, hf2⟩, hf3⟩ := hvr
    have hsz : ∀ f ∈ rr.funds, f.bytes.length = MIN_MIGRATED_FUNDS_LENGTH :=
      fun f hf => by simpa [validMigratedFunds] using hf3 f hf
    have hL := receiptBytes_length rr hsz
    have hE : MIN_MIGRATED_FUNDS_LENGTH = 90 := rfl
    rw [hE] at hL
    have : rr.funds.length * 90 ≤ 65536 * 90 :=
      Nat.mul_le_mul_right 90 (by omega)
    simp only [receiptOptEnvBytes, List.length_append, u32le_length, hL]
    omega

theorem payloadBodyBytes_bound (p : Payload) (hval : validPayload p = true) :
    0 < (payloadBodyBytes p).length ∧ (payloadBodyBytes p).length < 2 ^ 32
    := by
  cases p with
  | transaction t =>
    simp only [validPayload, validTransactionPayload, Bool.and_eq_true,
      decide_eq_true_eq, List.all_eq_true] at hval
    obtain ⟨⟨hd, hu1⟩, _⟩ := hval
    simp only [payloadBodyBytes, transactionBytes_length]
    omega
  | milestone m =>
    have hL := milestoneBytes_length_of_valid m (by simpa [validPayload]
      using hval)
    simp only [validMilestonePayload, Bool.and_eq_true, decide_eq_true_eq,
      List.all_eq_true, beq_iff_eq, validPayload] at hval
    obtain ⟨⟨⟨⟨⟨⟨⟨⟨⟨⟨⟨_, _⟩, _⟩, _⟩, _⟩, _⟩, hk2⟩, _⟩,
      hrcpt⟩, _⟩, hs2⟩, _⟩ := hval
    obtain ⟨hE4, hE23⟩ := receiptOptEnvBytes_bound m.receipt hrcpt
    simp only [payloadBodyBytes, hL]
    have hk32 : m.publicKeys.length * 32 ≤ 255 * 32 :=
      Nat.mul_le_mul_right 32 hk2
    have hs64 : m.signatures.length * 64 ≤ 255 * 64 :=
      Nat.mul_le_mul_right 64 hs2
    omega
  | indexation o =>
    simp only [validPayload, validIndexationPayload, Bool.and_eq_true,
      decide_eq_true_eq] at hval
    obtain ⟨⟨h1, h2⟩, h3⟩ := hval
    have hM2 : MAX_INDEXATION_KEY_LENGTH = 64 := rfl
    simp only [payloadBodyBytes, indexationBytes_length]
    omega
  | receipt r =>
    have := receiptBytes_length_bound r (by simpa [validPayload] using hval)
    simpa [payloadBodyBytes] using this

theorem deserializePayload_eq {σ r : List Nat} {o : Option Payload}
    {i f : Nat}
    (hval : validPayloadOpt o = true) (hle : i ≤ σ.length)
    (h : σ.drop i = payloadBytes o ++ r) :
    deserializePayload (f + 3) ⟨σ, i⟩ =
      .ok (o, ⟨σ, i + (payloadBytes o).length⟩) := by
  cases o with
  | none =>
    have h1 : σ.drop i = u32le 0 ++ r := by
      simpa [payloadBytes] using h
    have hlen := drop_view_length h1 hle
    rw [u32le_length] at hlen
    have hrem : ReadStream.hasRemaining ⟨σ, i⟩ MIN_PAYLOAD_LENGTH = true := by
      apply hasRemaining_of_le
      have : MIN_PAYLOAD_LENGTH = 4 := rfl
      omega
    have hrem0 : ReadStream.hasRemaining ⟨σ, i + 4⟩ 0 = true :=
      hasRemaining_of_le (by omega)
    have r1 := readUInt32P_eq (v := 0) (by norm_num) hle h1
    unfold deserializePayload
    rw [hrem]
    simp only [not_true_eq_false, if_false, Bool.false_eq_true, reduceIte]
    rw [r1]
    simp only []
    rw [hrem0]
    simp [payloadBytes]
  | some p =>
    have hvp : validPayload p = true := by simpa [validPayloadOpt] using hval
    obtain ⟨hpos, h32⟩ := payloadBodyBytes_bound p hvp
    have h1 : σ.drop i = u32le (payloadBodyBytes p).length ++
        (payloadBodyBytes p ++ r) := by
      simpa [payloadBytes, List.append_assoc] using h
    have hlen := drop_view_length h1 hle
    rw [u32le_length, List.length_append] at hlen
    have h2 : σ.drop (i + 4) = payloadBodyBytes p ++ r := by
      simpa using drop_next (b := u32le (payloadBodyBytes p).length) h1
    have hrem : ReadStream.hasRemaining ⟨σ, i⟩ MIN_PAYLOAD_LENGTH = true := by
      apply hasRemaining_of_le
      have : MIN_PAYLOAD_LENGTH = 4 := rfl
      omega
    have hremL : ReadStream.hasRemaining ⟨σ, i + 4⟩
        (payloadBodyBytes p).length = true := hasRemaining_of_le (by omega)
    have r1 := readUInt32P_eq (v := (payloadBodyBytes p).length) h32 hle h1
    have hidx : i + 4 + (payloadBodyBytes p).length =
        i + (payloadBytes (some p)).length := by
      simp [payloadBytes]
      omega
    unfold deserializePayload
    rw [hrem]
    simp only [not_true_eq_false, if_false, Bool.false_eq_true, reduceIte]
    rw [r1]
    simp only []
    rw [hremL]
    simp only [not_true_eq_false, if_false, Bool.false_eq_true, reduceIte,
      gt_iff_lt, hpos, if_true]
    cases p with
    | transaction t =>
      have h2' : σ.drop (i + 4) = u32le TRANSACTION_PAYLOAD_TYPE ++
          (essenceBytes t.essence ++
            (unlockBlocksBytes t.unlockBlocks ++ r)) := by
        simpa [payloadBodyBytes, transactionBytes, List.append_assoc] using h2
      have r2 := peekUInt32P_eq (v := TRANSACTION_PAYLOAD_TYPE)
        (by norm_num [TRANSACTION_PAYLOAD_TYPE])
        (show i + 4 ≤ σ.length by omega) h2'
      have r3 := deserializeTransactionPayload_eq (t := t)
        (by simpa [validPayload] using hvp) (show i + 4 ≤ σ.length by omega)
        (by simpa [payloadBodyBytes] using h2)
      rw [r2]
      simp only [TRANSACTION_PAYLOAD_TYPE, reduceIte]
      rw [r3]
      rw [show i + 4 + (transactionBytes t).length =
        i + 4 + (payloadBodyBytes (Payload.transaction t)).length from rfl,
        hidx]
    | milestone m =>
      have h2' : σ.drop (i + 4) = u32le MILESTONE_PAYLOAD_TYPE ++
          (u32le m.index ++ (u64le m.timestamp ++
          (m.parent1MessageId ++ (m.parent2MessageId ++
          (m.inclusionMerkleProof ++ ([m.publicKeys.length % 256] ++
          (m.publicKeys.flatten ++ (receiptOptEnvBytes m.receipt ++
          ([m.signatures.length % 256] ++ (m.signatures.flatten ++
            r)))))))))) := by
        simpa [payloadBodyBytes, milestoneBytes, List.append_assoc] using h2
      have r2 := peekUInt32P_eq (v := MILESTONE_PAYLOAD_TYPE)
        (by norm_num [MILESTONE_PAYLOAD_TYPE])
        (show i + 4 ≤ σ.length by omega) h2'
      have r3 := deserializeMilestonePayload_eq (m := m) (f := f)
        (by simpa [validPayload] using hvp) (show i + 4 ≤ σ.length by omega)
        (by simpa [payloadBodyBytes] using h2)
      rw [r2]
      simp only [MILESTONE_PAYLOAD_TYPE, TRANSACTION_PAYLOAD_TYPE,
        reduceCtorEq, reduceIte, Nat.one_ne_zero]
      rw [r3]
      rw [show i + 4 + (milestoneBytes m).length =
        i + 4 + (payloadBodyBytes (Payload.milestone m)).length from rfl,
        hidx]
    | indexation o =>
      have h2' : σ.drop (i + 4) = u32le INDEXATION_PAYLOAD_TYPE ++
          (u16le o.index.length ++ (o.index ++
            (u32le o.data.length ++ (o.data ++ r)))) := by
        simpa [payloadBodyBytes, indexationBytes, List.append_assoc] using h2
      have r2 := peekUInt32P_eq (v := INDEXATION_PAYLOAD_TYPE)
        (by norm_num [INDEXATION_PAYLOAD_TYPE])
        (show i + 4 ≤ σ.length by omega) h2'
      have r3 := deserializeIndexationPayload_eq (o := o)
        (by simpa [validPayload] using hvp) (show i + 4 ≤ σ.length by omega)
        (by simpa [payloadBodyBytes] using h2)
      rw [r2]
      simp only [INDEXATION_PAYLOAD_TYPE, TRANSACTION_PAYLOAD_TYPE,
        MILESTONE_PAYLOAD_TYPE, reduceCtorEq, reduceIte]
      rw [r3]
      rw [show i + 4 + (indexationBytes o).length =
        i + 4 + (payloadBodyBytes (Payload.indexation o)).length from rfl,
        hidx]
      norm_num
    | receipt q =>
      have h2' : σ.drop (i + 4) = u32le RECEIPT_PAYLOAD_TYPE ++
          (u32le q.migratedAt ++ (fundsBytes q.funds ++ r)) := by
        simpa [payloadBodyBytes, receiptBytes, List.append_assoc] using h2
      have r2 := peekUInt32P_eq (v := RECEIPT_PAYLOAD_TYPE)
        (by norm_num [RECEIPT_PAYLOAD_TYPE])
        (show i + 4 ≤ σ.length by omega) h2'
      have r3 := deserializeReceiptPayload_eq (r := q)
        (by simpa [validPayload] using hvp) (show i + 4 ≤ σ.length by omega)
        (by simpa [payloadBodyBytes] using h2)
      rw [r2]
      simp only [RECEIPT_PAYLOAD_TYPE, TRANSACTION_PAYLOAD_TYPE,
        MILESTONE_PAYLOAD_TYPE, INDEXATION_PAYLOAD_TYPE, reduceCtorEq,
        reduceIte]
      rw [r3]
      rw [show i + 4 + (receiptBytes q).length =
        i + 4 + (payloadBodyBytes (Payload.receipt q)).length from rfl,
        hidx]
      norm_num

/-! ## Shape of the serializer on success and on failure -/

/-- The body bytes of the envelope image: empty for the absent payload. -/
def payloadBody : Option Payload → List Nat
  | none => []
  | some p => payloadBodyBytes p

theorem payloadBytes_split (o : Option Payload) :
    payloadBytes o = u32le (payloadBody o).length ++ payloadBody o := by
  cases o <;> simp [payloadBytes, payloadBody]

theorem serializeIndexationPayload_error (ws : WriteStream)
    (o : IIndexationPayload)
    (h : payloadEncodeOk (some (.indexation o)) = false) :
    ∃ e, serializeIndexationPayload ws o = (ws, some e) ∧
      (e = .indexationKeyTooShort o.index.length ∨
       e = .indexationKeyTooLong o.index.length) := by
  simp only [payloadEncodeOk, Bool.and_eq_true, decide_eq_true_eq,
    Bool.and_eq_false_iff, decide_eq_false_iff_not, not_le] at h
  have hm1 : MIN_INDEXATION_KEY_LENGTH = 1 := rfl
  have hm2 : MAX_INDEXATION_KEY_LENGTH = 64 := rfl
  unfold serializeIndexationPayload
  rcases h with h | h
  · rw [if_pos (by omega)]
    exact ⟨_, rfl, Or.inl rfl⟩
  · rw [if_neg (by omega), if_pos (by omega)]
    exact ⟨_, rfl, Or.inr rfl⟩

theorem serializePayload_error (S : List Nat) (V : Option Payload)
    (h : payloadEncodeOk V = false) :
    ∃ o e, V = some (.indexation o) ∧
      serializePayload ⟨S, S.length⟩ V =
        (⟨S ++ u32le 0, (S ++ u32le 0).length⟩, some e) ∧
      (e = .indexationKeyTooShort o.index.length ∨
       e = .indexationKeyTooLong o.index.length) := by
  cases V with
  | none => simp [payloadEncodeOk] at h
  | some p =>
    cases p with
    | transaction t => simp [payloadEncodeOk] at h
    | milestone m => simp [payloadEncodeOk] at h
    | receipt r => simp [payloadEncodeOk] at h
    | indexation o =>
      obtain ⟨e, he, hor⟩ := serializeIndexationPayload_error
        ⟨S ++ u32le 0, (S ++ u32le 0).length⟩ o h
      refine ⟨o, e, rfl, ?_, hor⟩
      unfold serializePayload
      simp only [WriteStream.getWriteIndex, WriteStream.writeUInt32,
        writeBytesRaw_append, he, envelopeFinish]

/-- Inversion of a successful envelope serialization started at the append
position: the output is the old buffer extended by the envelope image. -/
theorem serializePayload_success (S : List Nat) (V : Option Payload)
    (ws' : WriteStream) (e? : Option CodecError)
    (hrun : serializePayload ⟨S, S.length⟩ V = (ws', e?)) (hok : e? = none) :
    payloadEncodeOk V = true ∧
      ws' = ⟨S ++ payloadBytes V, (S ++ payloadBytes V).length⟩ := by
  by_cases h : payloadEncodeOk V = true
  · rw [serializePayload_eq S V h] at hrun
    exact ⟨h, by injection hrun with h1 h2; exact h1.symm⟩
  · obtain ⟨o, e, _, hrun2, _⟩ := serializePayload_error S V
      (Bool.not_eq_true _ ▸ (by simpa using h))
    rw [hrun2] at hrun
    injection hrun with h1 h2
    rw [← h2] at hok
    simp at hok

theorem payloadEncodeOk_of_valid {V : Option Payload}
    (hval : validPayloadOpt V = true) : payloadEncodeOk V = true := by
  cases V with
  | none => rfl
  | some p =>
    cases p with
    | indexation o =>
      simp only [validPayloadOpt, validPayload, validIndexationPayload,
        Bool.and_eq_true, decide_eq_true_eq] at hval
      simp only [payloadEncodeOk, Bool.and_eq_true, decide_eq_true_eq]
      exact ⟨hval.1.1, hval.1.2⟩
    | transaction t => rfl
    | milestone m => rfl
    | receipt r => rfl

/-! ## The claims -/

/-- C1: for every valid payload value of each of the four kinds and for the
absent payload, serializing through the envelope and deserializing the
resulting bytes returns the original value (and consumes the whole
buffer).  Any fuel of at least three suffices. -/
theorem c1_payload_roundtrip (V : Option Payload) (fuel : Nat)
    (hval : validPayloadOpt V = true) :
    ∃ ws : WriteStream,
      serializePayload ⟨[], 0⟩ V = (ws, none) ∧
      deserializePayload (fuel + 3) ⟨ws.storage, 0⟩ =
        .ok (V, ⟨ws.storage, ws.storage.length⟩) := by
  have hok := payloadEncodeOk_of_valid hval
  have hser := serializePayload_eq [] V hok
  refine ⟨⟨payloadBytes V, (payloadBytes V).length⟩, ?_, ?_⟩
  · simpa using hser
  · have hdes := deserializePayload_eq (σ := payloadBytes V) (r := [])
      (i := 0) (f := fuel) hval (by omega) (by simp)
    simpa using hdes

/-- C1 witness: the round trip at a concrete indexation payload. -/
theorem c1_payload_roundtrip_witness :
    validPayloadOpt (some (.indexation ⟨[65], []⟩)) = true ∧
    ∃ ws : WriteStream,
      serializePayload ⟨[], 0⟩ (some (.indexation ⟨[65], []⟩)) = (ws, none) ∧
      deserializePayload 3 ⟨ws.storage, 0⟩ =
        .ok (some (.indexation ⟨[65], []⟩), ⟨ws.storage, ws.storage.length⟩)
    := ⟨by decide, c1_payload_roundtrip (some (.indexation ⟨[65], []⟩)) 0
      (by decide)⟩

/-- C2: after a successful envelope serialization from the append position,
the four length bytes back-patched at the start position decode to exactly
the byte count the variant codec wrote after them (end minus start minus
four), and the final write position is the end of the written body. -/
theorem c2_length_backpatch (ws ws' : WriteStream) (V : Option Payload)
    (happend : ws.writeIndex = ws.storage.length)
    (hrun : serializePayload ws V = (ws', none))
    (hbound : ws'.writeIndex - ws.writeIndex - UINT32_SIZE < 2 ^ 32) :
    fromLE ((ws'.storage.drop ws.writeIndex).take UINT32_SIZE) =
      ws'.writeIndex - ws.writeIndex - UINT32_SIZE ∧
    ws'.writeIndex = ws.writeIndex + UINT32_SIZE +
      (ws'.writeIndex - ws.writeIndex - UINT32_SIZE) ∧
    ws'.writeIndex = ws'.storage.length := by
  obtain ⟨S, wI⟩ := ws
  simp only at happend
  subst happend
  obtain ⟨hok, hws⟩ := serializePayload_success S V ws' none hrun rfl
  subst hws
  rw [payloadBytes_split] at hbound ⊢
  dsimp only at hbound ⊢
  simp only [List.length_append, u32le_length] at hbound ⊢
  have hU : UINT32_SIZE = 4 := rfl
  rw [hU] at hbound ⊢
  have hdrop : ((S ++ (u32le (payloadBody V).length ++ payloadBody V)).drop
      S.length) = u32le (payloadBody V).length ++ payloadBody V :=
    List.drop_left S _
  have htake0 := List.take_left (u32le (payloadBody V).length) (payloadBody V)
  rw [u32le_length] at htake0
  have hlt : (payloadBody V).length < 2 ^ 32 := by omega
  have hc2 : S.length + (4 + (payloadBody V).length) =
      S.length + 4 + (S.length + (4 + (payloadBody V).length) -
        S.length - 4) := by omega
  refine ⟨?_, hc2, by trivial⟩
  rw [hdrop, htake0, fromLE_u32le hlt]
  omega

/-- C2 witness: the back-patch facts at a concrete transaction payload. -/
theorem c2_length_backpatch_witness :
    serializePayload ⟨[], 0⟩ (some (.transaction ⟨⟨[7]⟩, [1]⟩)) =
      (⟨payloadBytes (some (.transaction ⟨⟨[7]⟩, [1]⟩)),
        (payloadBytes (some (.transaction ⟨⟨[7]⟩, [1]⟩))).length⟩, none) ∧
    fromLE (((payloadBytes (some (.transaction ⟨⟨[7]⟩, [1]⟩))).drop 0).take
      UINT32_SIZE) = 11 := by
  have h1 : serializePayload ⟨[], 0⟩ (some (.transaction ⟨⟨[7]⟩, [1]⟩)) =
      (⟨payloadBytes (some (.transaction ⟨⟨[7]⟩, [1]⟩)),
        (payloadBytes (some (.transaction ⟨⟨[7]⟩, [1]⟩))).length⟩, none) :=
    by decide
  have h2 := c2_length_backpatch ⟨[], 0⟩ _
    (some (.transaction ⟨⟨[7]⟩, [1]⟩)) (by decide) h1 (by decide)
  exact ⟨h1, by revert h2; decide⟩

/-- C3: truncating the output of the envelope serializer at any point
strictly before its end makes deserialization fail with a TruncatedInput
error: below four bytes at the envelope minimum precheck, and otherwise at
the declared-length check, which reports the declared length and the
actual remaining count. -/
theorem c3_truncation (V : Option Payload) (k fuel : Nat)
    (hval : validPayloadOpt V = true)
    (hk : k < ((serializePayload ⟨[], 0⟩ V).1.storage).length) :
    ∃ e, deserializePayload (fuel + 1)
        ⟨((serializePayload ⟨[], 0⟩ V).1.storage).take k, 0⟩ = .error e ∧
      e.isTruncatedInput = true ∧
      ((k < MIN_PAYLOAD_LENGTH ∧ e = .payloadMinUnderflow k) ∨
       (MIN_PAYLOAD_LENGTH ≤ k ∧
         e = .payloadLengthExceeds (payloadBody V).length
               (k - MIN_PAYLOAD_LENGTH))) := by
  have hok := payloadEncodeOk_of_valid hval
  have hser := serializePayload_eq [] V hok
  have hstor : (serializePayload ⟨[], 0⟩ V).1.storage = payloadBytes V := by
    have : serializePayload ⟨[], 0⟩ V =
        (⟨payloadBytes V, (payloadBytes V).length⟩, none) := by simpa using hser
    rw [this]
  rw [hstor] at hk ⊢
  rw [payloadBytes_split] at hk ⊢
  have hM : MIN_PAYLOAD_LENGTH = 4 := rfl
  set B := (payloadBody V).length with hB
  have hkout : k ≤ 4 + B := by
    simp only [List.length_append, u32le_length] at hk
    omega
  have hlenk : ((u32le B ++ payloadBody V).take k).length = k := by
    simp only [List.length_take, List.length_append, u32le_length]
    omega
  have hB32 : B < 2 ^ 32 := by
    cases V with
    | none => simp [payloadBody] at hB; omega
    | some p =>
      have := payloadBodyBytes_bound p (by simpa [validPayloadOpt] using hval)
      simp only [payloadBody] at hB
      omega
  by_cases hk4 : k < 4
  · refine ⟨.payloadMinUnderflow k, ?_, rfl, Or.inl ⟨by omega, rfl⟩⟩
    have hfalse : ReadStream.hasRemaining
        ⟨(u32le B ++ payloadBody V).take k, 0⟩ MIN_PAYLOAD_LENGTH = false :=
      hasRemaining_false_of_gt (by rw [hlenk, hM]; omega)
    unfold deserializePayload
    rw [hfalse]
    simp [ReadStream.length, hlenk]
  · have hk4' : 4 ≤ k := by omega
    have htake : (u32le B ++ payloadBody V).take k =
        u32le B ++ (payloadBody V).take (k - 4) := by
      conv_lhs => rw [show k = (u32le B).length + (k - 4) by
        simp only [u32le_length]; omega]
      exact List.take_append _
    have hkB : k - 4 < B := by
      simp only [List.length_append, u32le_length] at hk
      omega
    refine ⟨.payloadLengthExceeds B (k - 4), ?_, rfl,
      Or.inr ⟨by omega, by rw [hM]⟩⟩
    have hd0 : ((u32le B ++ payloadBody V).take k).drop 0 =
        u32le B ++ (payloadBody V).take (k - 4) := by
      rw [List.drop_zero, htake]
    have r1 := readUInt32P_eq (σ := (u32le B ++ payloadBody V).take k)
      (v := B) (r := (payloadBody V).take (k - 4)) hB32 (by omega) hd0
    have hrem : ReadStream.hasRemaining
        ⟨(u32le B ++ payloadBody V).take k, 0⟩ MIN_PAYLOAD_LENGTH = true := by
      apply hasRemaining_of_le
      rw [hlenk, hM]
      omega
    have hfalse : ReadStream.hasRemaining
        ⟨(u32le B ++ payloadBody V).take k, 0 + 4⟩ B = false :=
      hasRemaining_false_of_gt (by rw [hlenk]; omega)
    unfold deserializePayload
    rw [hrem]
    simp only [not_true_eq_false, if_false, Bool.false_eq_true, reduceIte]
    rw [r1]
    simp only []
    rw [hfalse]
    simp [ReadStream.unused, hlenk]

/-- C3 witness: truncating a concrete 15-byte indexation envelope to 7
bytes fails at the declared-length check. -/
theorem c3_truncation_witness :
    validPayloadOpt (some (.indexation ⟨[65], []⟩)) = true ∧
    (7 : Nat) < ((serializePayload ⟨[], 0⟩
      (some (.indexation ⟨[65], []⟩))).1.storage).length ∧
    ∃ e, deserializePayload 1
        ⟨((serializePayload ⟨[], 0⟩
          (some (.indexation ⟨[65], []⟩))).1.storage).take 7, 0⟩ =
          .error e ∧
      e.isTruncatedInput = true ∧
      ((7 < MIN_PAYLOAD_LENGTH ∧ e = .payloadMinUnderflow 7) ∨
       (MIN_PAYLOAD_LENGTH ≤ 7 ∧
         e = .payloadLengthExceeds
           (payloadBody (some (.indexation ⟨[65], []⟩))).length
           (7 - MIN_PAYLOAD_LENGTH))) :=
  ⟨by decide, by decide,
    c3_truncation (some (.indexation ⟨[65], []⟩)) 7 0 (by decide) (by decide)⟩

/-- C6: the indexation serializer rejects exactly the key lengths outside
one to sixty-four, and a rejection happens before any bytes are written:
the writer comes back unchanged with the length-out-of-range error naming
the offending length; in particular lengths zero and sixty-five fail and
lengths one and sixty-four succeed. -/
theorem c6_indexation_key_bounds (ws : WriteStream) (o : IIndexationPayload) :
    ((serializeIndexationPayload ws o).2 = none ↔
      MIN_INDEXATION_KEY_LENGTH ≤ o.index.length ∧
        o.index.length ≤ MAX_INDEXATION_KEY_LENGTH) ∧
    (o.index.length = 0 ∨ o.index.length = 65 →
      ∃ e, serializeIndexationPayload ws o = (ws, some e) ∧
        (e = .indexationKeyTooShort o.index.length ∨
         e = .indexationKeyTooLong o.index.length)) := by
  have hm1 : MIN_INDEXATION_KEY_LENGTH = 1 := rfl
  have hm2 : MAX_INDEXATION_KEY_LENGTH = 64 := rfl
  constructor
  · constructor
    · intro hnone
      by_contra hout
      have hbad : payloadEncodeOk (some (.indexation o)) = false := by
        simp only [payloadEncodeOk, Bool.and_eq_true, decide_eq_true_eq]
        rw [Bool.eq_false_iff]
        intro hcontra
        simp only [Bool.and_eq_true, decide_eq_true_eq] at hcontra
        exact hout hcontra
      obtain ⟨e, he, _⟩ := serializeIndexationPayload_error ws o hbad
      rw [he] at hnone
      simp at hnone
    · intro ⟨h1, h2⟩
      unfold serializeIndexationPayload
      rw [if_neg (by omega), if_neg (by omega)]
      by_cases hd : o.data.isEmpty <;> simp [hd]
  · intro hlen
    apply serializeIndexationPayload_error
    simp only [payloadEncodeOk, Bool.and_eq_false_iff,
      decide_eq_false_iff_not, not_le]
    rcases hlen with h | h
    · left
      omega
    · right
      omega

/-- C6 witness: length zero fails unchanged, length one succeeds. -/
theorem c6_indexation_key_bounds_witness :
    ((serializeIndexationPayload ⟨[], 0⟩ ⟨[], []⟩).2 = none ↔
      MIN_INDEXATION_KEY_LENGTH ≤ ([] : List Nat).length ∧
        ([] : List Nat).length ≤ MAX_INDEXATION_KEY_LENGTH) ∧
    (([] : List Nat).length = 0 ∨ ([] : List Nat).length = 65 →
      ∃ e, serializeIndexationPayload ⟨[], 0⟩ ⟨[], []⟩ = (⟨[], 0⟩, some e) ∧
        (e = .indexationKeyTooShort ([] : List Nat).length ∨
         e = .indexationKeyTooLong ([] : List Nat).length)) :=
  c6_indexation_key_bounds ⟨[], 0⟩ ⟨[], []⟩

/-- C7: encoding the indexation payload with the one-byte index 65 and no
data through the envelope produces exactly the fifteen bytes: outer length
11, the indexation type tag, string length 1, the byte 65, and data length
0; deserializing these bytes reproduces the value. -/
theorem c7_concrete_scenario :
    serializePayload ⟨[], 0⟩ (some (.indexation ⟨[65], []⟩)) =
      (⟨u32le 11 ++ u32le INDEXATION_PAYLOAD_TYPE ++ u16le 1 ++ [65] ++
        u32le 0, 15⟩, none) ∧
    11 = 4 + 2 + 1 + 4 ∧
    deserializePayload 1
        ⟨u32le 11 ++ u32le INDEXATION_PAYLOAD_TYPE ++ u16le 1 ++ [65] ++
          u32le 0, 0⟩ =
      .ok (some (.indexation ⟨[65], []⟩),
        ⟨u32le 11 ++ u32le INDEXATION_PAYLOAD_TYPE ++ u16le 1 ++ [65] ++
          u32le 0, 15⟩) := by
  refine ⟨by decide, by decide, by decide⟩

/-- C9: the envelope serializer writes the placeholder length before any
validation, so every failing call leaves the writer mutated: the four
placeholder bytes sit at the old write position and the position has
advanced past them. -/
theorem c9_writer_mutated_on_error (ws ws' : WriteStream)
    (V : Option Payload) (e : CodecError)
    (happend : ws.writeIndex = ws.storage.length)
    (hrun : serializePayload ws V = (ws', some e)) :
    (ws'.storage.drop ws.writeIndex).take UINT32_SIZE = u32le 0 ∧
    ws.writeIndex + UINT32_SIZE ≤ ws'.writeIndex := by
  obtain ⟨S, wI⟩ := ws
  simp only at happend
  subst happend
  by_cases hok : payloadEncodeOk V = true
  · rw [serializePayload_eq S V hok] at hrun
    injection hrun with h1 h2
    simp at h2
  · obtain ⟨o, e', hV, hrun2, _⟩ := serializePayload_error S V
      (by simpa using hok)
    rw [hrun2] at hrun
    injection hrun with h1 h2
    subst h1
    dsimp only
    constructor
    · rw [List.drop_left S (u32le 0)]
      decide
    · simp [UINT32_SIZE]

/-- C9 witness: the empty-index indexation payload makes the envelope fail
with the writer holding the placeholder and an advanced position. -/
theorem c9_writer_mutated_on_error_witness :
    serializePayload ⟨[], 0⟩ (some (.indexation ⟨[], []⟩)) =
      (⟨u32le 0, 4⟩, some (.indexationKeyTooShort 0)) ∧
    (((⟨u32le 0, 4⟩ : WriteStream).storage.drop 0).take UINT32_SIZE =
      u32le 0 ∧ 0 + UINT32_SIZE ≤ 4) :=
  ⟨by decide, c9_writer_mutated_on_error ⟨[], 0⟩ ⟨u32le 0, 4⟩
    (some (.indexation ⟨[], []⟩)) (.indexationKeyTooShort 0) (by decide)
    (by decide)⟩

theorem readBytesP_error {n : Nat} {rs : ReadStream} {e : CodecError}
    (h : readBytesP n rs = .error e) : e = .streamUnderflow := by
  unfold readBytesP at h
  split at h <;> simp_all

theorem readUInt32P_error {rs : ReadStream} {e : CodecError}
    (h : readUInt32P rs = .error e) : e = .streamUnderflow := by
  unfold readUInt32P at h
  rcases hb : readBytesP 4 rs with e' | v <;> rw [hb] at h
  · simp only [Except.error.injEq] at h
    rw [← h]
    exact readBytesP_error hb
  · obtain ⟨a, b⟩ := v
    simp at h

theorem readStringP_error {rs : ReadStream} {e : CodecError}
    (h : readStringP rs = .error e) : e = .streamUnderflow := by
  unfold readStringP readUInt16P at h
  rcases hb : readBytesP 2 rs with e' | v <;> rw [hb] at h
  · simp only [Except.error.injEq] at h
    rw [← h]
    exact readBytesP_error hb
  · obtain ⟨a, b⟩ := v
    simp only [] at h
    exact readBytesP_error h

theorem readFixedHexP_error {n : Nat} {rs : ReadStream} {e : CodecError}
    (h : readFixedHexP n rs = .error e) : e = .streamUnderflow :=
  readBytesP_error h

/-- C10: the indexation minimum-length constant is 9 because the 4-byte
data-length field is counted as the 2-byte STRING_LENGTH, every envelope
encoding of a valid indexation payload has a body of at least 11 bytes,
and a stream with 9 or more unread bytes passes the minimum-size precheck,
so such inputs can fail only inside the subsequent field reads, never with
the minimum-size error. -/
theorem c10_indexation_min_length :
    MIN_INDEXATION_PAYLOAD_LENGTH = 9 ∧
    MIN_INDEXATION_PAYLOAD_LENGTH =
      MIN_PAYLOAD_LENGTH + STRING_LENGTH + 1 + STRING_LENGTH ∧
    STRING_LENGTH = 2 ∧ UINT32_SIZE = 4 ∧
    (∀ o : IIndexationPayload, validIndexationPayload o = true →
      11 ≤ (indexationBytes o).length) ∧
    (∀ rs : ReadStream, 9 ≤ rs.unused →
      rs.hasRemaining MIN_INDEXATION_PAYLOAD_LENGTH = true ∧
      ∀ n, deserializeIndexationPayload rs ≠
        .error (.indexationMinUnderflow n)) := by
  refine ⟨rfl, rfl, rfl, rfl, ?_, ?_⟩
  · intro o hval
    simp only [validIndexationPayload, Bool.and_eq_true,
      decide_eq_true_eq] at hval
    have hb : MIN_INDEXATION_KEY_LENGTH = 1 := rfl
    have hc : MAX_INDEXATION_KEY_LENGTH = 64 := rfl
    rw [indexationBytes_length]
    omega
  · intro rs h9
    obtain ⟨σ, i⟩ := rs
    simp only [ReadStream.unused] at h9
    have hrem : ReadStream.hasRemaining ⟨σ, i⟩
        MIN_INDEXATION_PAYLOAD_LENGTH = true := by
      apply hasRemaining_of_le
      have : MIN_INDEXATION_PAYLOAD_LENGTH = 9 := rfl
      omega
    refine ⟨hrem, ?_⟩
    intro n
    unfold deserializeIndexationPayload
    rw [hrem]
    simp only [not_true_eq_false, if_false, Bool.false_eq_true, reduceIte]
    rcases h32 : readUInt32P ⟨σ, i⟩ with e | ⟨ty, rs1⟩
    · simp [readUInt32P_error h32]
    · simp only []
      by_cases hty : ty = INDEXATION_PAYLOAD_TYPE
      · simp only [hty, ne_eq, not_true_eq_false, if_false, reduceIte]
        rcases hs : readStringP rs1 with e | ⟨idx, rs2⟩
        · simp [readStringP_error hs]
        · simp only []
          rcases h32b : readUInt32P rs2 with e | ⟨dl, rs3⟩
          · simp [readUInt32P_error h32b]
          · simp only []
            rcases hfh : readFixedHexP dl rs3 with e | ⟨d, rs4⟩
            · simp [readFixedHexP_error hfh]
            · simp
      · simp [hty]

/-- Rewrite only the outer 4-byte type tag of an encoded payload, the
four bytes that follow the envelope length field. -/
def retagOuter (bs : List Nat) (t : Nat) : List Nat :=
  bs.take 4 ++ u32le t ++ bs.drop 8

/-- A transaction whose essence content is 256 zero bytes; its encoding
retagged to the indexation tag parses as an indexation payload. -/
def c4Transaction : ITransactionPayload := ⟨⟨List.replicate 256 0⟩, []⟩

set_option maxRecDepth 1000000 in
/-- C4 counterexample: rewriting the outer type tag of a valid encoded
Transaction payload to the known Indexation tag does not make decode fail;
it silently returns an Indexation payload value. -/
theorem c4_counterexample :
    validTransactionPayload c4Transaction = true ∧
    deserializePayload 1
        ⟨retagOuter ((serializePayload ⟨[], 0⟩
            (some (.transaction c4Transaction))).1.storage)
          INDEXATION_PAYLOAD_TYPE, 0⟩ =
      .ok (some (.indexation ⟨[], [0]⟩),
        ⟨retagOuter ((serializePayload ⟨[], 0⟩
            (some (.transaction c4Transaction))).1.storage)
          INDEXATION_PAYLOAD_TYPE, 15⟩) :=
  ⟨by decide, by decide⟩

set_option maxRecDepth 1000000 in
/-- C4, amended: rewriting the outer type tag of a valid encoded
Transaction payload to a value that is none of the four known tags makes
deserialization fail with the unrecognized-payload-type error carrying the
rewritten tag; rewriting it to another known tag, however, does not always
fail: the bytes can decode successfully as a value of the other kind. -/
theorem c4_outer_tag_rewrite :
    (∀ (t : ITransactionPayload) (tag fuel : Nat),
      validTransactionPayload t = true → tag < 2 ^ 32 →
      tag ≠ TRANSACTION_PAYLOAD_TYPE → tag ≠ MILESTONE_PAYLOAD_TYPE →
      tag ≠ INDEXATION_PAYLOAD_TYPE → tag ≠ RECEIPT_PAYLOAD_TYPE →
      deserializePayload (fuel + 1)
          ⟨retagOuter ((serializePayload ⟨[], 0⟩
              (some (.transaction t))).1.storage) tag, 0⟩ =
        .error (.unrecognizedPayloadType tag)) ∧
    deserializePayload 1
        ⟨retagOuter ((serializePayload ⟨[], 0⟩
            (some (.transaction c4Transaction))).1.storage)
          INDEXATION_PAYLOAD_TYPE, 0⟩ =
      .ok (some (.indexation ⟨[], [0]⟩),
        ⟨retagOuter ((serializePayload ⟨[], 0⟩
            (some (.transaction c4Transaction))).1.storage)
          INDEXATION_PAYLOAD_TYPE, 15⟩) := by
  constructor
  · intro t tag fuel hval htag h0 h1 h2 h3
    have hser := serializePayload_eq [] (some (.transaction t)) rfl
    have hstor : (serializePayload ⟨[], 0⟩
        (some (.transaction t))).1.storage =
        u32le (transactionBytes t).length ++ transactionBytes t := by
      have h' : serializePayload ⟨[], 0⟩ (some (.transaction t)) =
          (⟨payloadBytes (some (.transaction t)),
            (payloadBytes (some (.transaction t))).length⟩, none) := by
        simpa using hser
      rw [h']
      simp [payloadBytes, payloadBodyBytes]
    rw [hstor]
    set B := (transactionBytes t).length with hB
    set R := essenceBytes t.essence ++ unlockBlocksBytes t.unlockBlocks
      with hR
    have htx : transactionBytes t = u32le TRANSACTION_PAYLOAD_TYPE ++ R := by
      rw [transactionBytes, hR, List.append_assoc]
    have hBR : B = 4 + R.length := by
      rw [hB, htx]
      simp
    have hretag : retagOuter (u32le B ++ transactionBytes t) tag =
        u32le B ++ (u32le tag ++ R) := by
      unfold retagOuter
      have htk : (u32le B ++ transactionBytes t).take 4 = u32le B := by
        rw [show (4 : Nat) = (u32le B).length from rfl]
        exact List.take_left _ _
      have hdr : (u32le B ++ transactionBytes t).drop 8 = R := by
        rw [show (8 : Nat) = 4 + 4 from rfl, ← List.drop_drop]
        have d1 : (u32le B ++ transactionBytes t).drop 4 =
            transactionBytes t := by
          rw [show (4 : Nat) = (u32le B).length from rfl]
          exact List.drop_left _ _
        rw [d1, htx]
        rw [show (4 : Nat) = (u32le TRANSACTION_PAYLOAD_TYPE).length from rfl]
        exact List.drop_left _ _
      rw [htk, hdr, List.append_assoc]
    rw [hretag]
    have hBb := payloadBodyBytes_bound (.transaction t)
      (by simpa [validPayload] using hval)
    simp only [payloadBodyBytes, ← hB] at hBb
    have hB32 : B < 2 ^ 32 := hBb.2
    have hBpos : 0 < B := hBb.1
    have hlen : (u32le B ++ (u32le tag ++ R)).length = 4 + B := by
      simp [hBR]
    have hd0 : (u32le B ++ (u32le tag ++ R)).drop 0 =
        u32le B ++ (u32le tag ++ R) := List.drop_zero _
    have r1 := readUInt32P_eq (σ := u32le B ++ (u32le tag ++ R)) (v := B)
      (r := u32le tag ++ R) hB32 (by omega) hd0
    have hd4 : (u32le B ++ (u32le tag ++ R)).drop (0 + 4) =
        u32le tag ++ R := by
      have := drop_next (b := u32le B) hd0
      exact this
    have r2 := peekUInt32P_eq (σ := u32le B ++ (u32le tag ++ R)) (v := tag)
      (r := R) htag (by rw [hlen]; omega) hd4
    have hrem : ReadStream.hasRemaining ⟨u32le B ++ (u32le tag ++ R), 0⟩
        MIN_PAYLOAD_LENGTH = true := by
      apply hasRemaining_of_le
      rw [hlen]
      have : MIN_PAYLOAD_LENGTH = 4 := rfl
      omega
    have hremL : ReadStream.hasRemaining
        ⟨u32le B ++ (u32le tag ++ R), 0 + 4⟩ B = true := by
      apply hasRemaining_of_le
      rw [hlen]
    unfold deserializePayload
    rw [hrem]
    simp only [not_true_eq_false, if_false, Bool.false_eq_true, reduceIte]
    rw [r1]
    simp only []
    rw [hremL]
    simp only [not_true_eq_false, if_false, Bool.false_eq_true, reduceIte,
      gt_iff_lt, hBpos, if_true]
    rw [r2]
    simp only []
    rw [if_neg h0, if_neg h1, if_neg h2, if_neg h3]
  · exact (by decide)

theorem deserializeMilestoneTail_receipt {rs rs' : ReadStream}
    {idx ts : Nat} {p1 p2 pf : List Nat} {keys : List (List Nat)}
    {rcpt : Option IReceiptPayload} {m : IMilestonePayload}
    (h : deserializeMilestoneTail rs idx ts p1 p2 pf keys rcpt =
      .ok (m, rs')) : m.receipt = rcpt := by
  unfold deserializeMilestoneTail at h
  rcases h1 : readByteP rs with e | ⟨c, rs1⟩ <;> rw [h1] at h
  · simp at h
  · simp only [] at h
    rcases h2 : readManyP c Ed25519.SIGNATURE_SIZE rs1 with e | ⟨sigs, rs2⟩
      <;> rw [h2] at h
    · simp at h
    · simp only [Except.ok.injEq, Prod.mk.injEq] at h
      rw [← h.1]

theorem c5_success_shape (fuel : Nat) (rs rs' : ReadStream)
    (m : IMilestonePayload)
    (h : deserializeMilestonePayload (fuel + 1) rs = .ok (m, rs')) :
    ∃ rsMid rsAfter : ReadStream,
      deserializePayload fuel rsMid =
        .ok (m.receipt.map Payload.receipt, rsAfter) := by
  unfold deserializeMilestonePayload at h
  split at h
  · simp at h
  · rcases q1 : readUInt32P rs with e | ⟨ty, rs1⟩ <;> rw [q1] at h
    · simp at h
    · simp only [] at h
      split at h
      · simp at h
      · rcases q2 : readUInt32P rs1 with e | ⟨idx, rs2⟩ <;> rw [q2] at h
        · simp at h
        · simp only [] at h
          rcases q3 : readUInt64P rs2 with e | ⟨ts, rs3⟩ <;> rw [q3] at h
          · simp at h
          · simp only [] at h
            rcases q4 : readFixedHexP MESSAGE_ID_LENGTH rs3 with e | ⟨a1, rs4⟩
              <;> rw [q4] at h
            · simp at h
            · simp only [] at h
              rcases q5 : readFixedHexP MESSAGE_ID_LENGTH rs4 with
                e | ⟨a2, rs5⟩ <;> rw [q5] at h
              · simp at h
              · simp only [] at h
                rcases q6 : readFixedHexP MERKLE_PROOF_LENGTH rs5 with
                  e | ⟨pf, rs6⟩ <;> rw [q6] at h
                · simp at h
                · simp only [] at h
                  rcases q7 : readByteP rs6 with e | ⟨cnt, rs7⟩
                    <;> rw [q7] at h
                  · simp at h
                  · simp only [] at h
                    rcases q8 : readManyP cnt Ed25519.PUBLIC_KEY_SIZE rs7 with
                      e | ⟨keys, rs8⟩ <;> rw [q8] at h
                    · simp at h
                    · simp only [] at h
                      rcases q9 : deserializePayload fuel rs8 with
                        e | ⟨nested, rs9⟩ <;> rw [q9] at h
                      · simp at h
                      · simp only [] at h
                        rcases nested with _ | p
                        · have hrc := deserializeMilestoneTail_receipt h
                          exact ⟨rs8, rs9, by rw [hrc]; simpa using q9⟩
                        · rcases p with t | ms | io | r
                          · simp at h
                          · simp at h
                          · simp at h
                          · have hrc := deserializeMilestoneTail_receipt h
                            exact ⟨rs8, rs9, by rw [hrc]; simpa using q9⟩

theorem c5_nonreceipt_error {idx ts : Nat} {p1 p2 pf : List Nat}
    {keys : List (List Nat)} {tail : List Nat} {fuel : Nat}
    {p : Payload} {rs' : ReadStream}
    (hidx : idx < 2 ^ 32) (hts : ts < 2 ^ 64)
    (hp1 : p1.length = 32) (hp2 : p2.length = 32) (hpf : pf.length = 32)
    (hk1 : keys.length ≤ 255) (hkall : ∀ k ∈ keys, k.length = 32)
    (hmin : 210 ≤ (u32le MILESTONE_PAYLOAD_TYPE ++ u32le idx ++ u64le ts ++
      p1 ++ p2 ++ pf ++ [keys.length % 256] ++ keys.flatten ++ tail).length)
    (hnest : deserializePayload fuel
      ⟨u32le MILESTONE_PAYLOAD_TYPE ++ u32le idx ++ u64le ts ++ p1 ++ p2 ++
        pf ++ [keys.length % 256] ++ keys.flatten ++ tail,
        113 + keys.length * 32⟩ = .ok (some p, rs'))
    (hnr : ∀ r, p ≠ Payload.receipt r) :
    deserializeMilestonePayload (fuel + 1)
      ⟨u32le MILESTONE_PAYLOAD_TYPE ++ u32le idx ++ u64le ts ++ p1 ++ p2 ++
        pf ++ [keys.length % 256] ++ keys.flatten ++ tail, 0⟩ =
      .error .milestoneNestedKind := by
  have hkflat : keys.flatten.length = keys.length * 32 :=
    flatten_length_const hkall
  have hle : (0 : Nat) ≤ (u32le MILESTONE_PAYLOAD_TYPE ++ u32le idx ++
      u64le ts ++ p1 ++ p2 ++ pf ++ [keys.length % 256] ++ keys.flatten ++
      tail).length := Nat.zero_le _
  have hd0 : (u32le MILESTONE_PAYLOAD_TYPE ++ u32le idx ++ u64le ts ++
      p1 ++ p2 ++ pf ++ [keys.length % 256] ++ keys.flatten ++
      tail).drop 0 = u32le MILESTONE_PAYLOAD_TYPE ++ (u32le idx ++
      (u64le ts ++ (p1 ++ (p2 ++ (pf ++ ([keys.length % 256] ++
      (keys.flatten ++ tail))))))) := by
    simp [List.append_assoc]
  have hd1 := drop_next hd0
  rw [u32le_length] at hd1
  have hd2 := drop_next hd1
  rw [u32le_length] at hd2
  have hd3 := drop_next hd2
  rw [u64le_length] at hd3
  have hd4 := drop_next hd3
  rw [hp1] at hd4
  have hd5 := drop_next hd4
  rw [hp2] at hd5
  have hd6 := drop_next hd5
  rw [hpf] at hd6
  have hd7 := drop_next hd6
  simp only [List.length_singleton] at hd7
  have hrem : ReadStream.hasRemaining
      ⟨u32le MILESTONE_PAYLOAD_TYPE ++ u32le idx ++ u64le ts ++ p1 ++ p2 ++
        pf ++ [keys.length % 256] ++ keys.flatten ++ tail, 0⟩
      MIN_MILESTONE_PAYLOAD_LENGTH = true := by
    apply hasRemaining_of_le
    have hMM : MIN_MILESTONE_PAYLOAD_LENGTH = 210 := rfl
    omega
  have r1 := readUInt32P_eq (v := MILESTONE_PAYLOAD_TYPE)
    (by norm_num [MILESTONE_PAYLOAD_TYPE]) hle hd0
  have r2 := readUInt32P_eq (v := idx) hidx (by omega) hd1
  have r3 := readUInt64P_eq (v := ts) hts (by omega) hd2
  have r4 := readFixedHexP_eq (b := p1) hp1 (by omega) hd3
  have r5 := readFixedHexP_eq (b := p2) hp2 (by omega) hd4
  have r6 := readFixedHexP_eq (b := pf) hpf (by omega) hd5
  have r7 := readByteP_eq (b := keys.length % 256) (by omega) hd6
  have hkmod : keys.length % 256 = keys.length :=
    Nat.mod_eq_of_lt (by omega)
  have r8 := readManyP_eq (K := keys) (z := 32) hkall (by omega) hd7
  have hnest' : deserializePayload fuel
      ⟨u32le MILESTONE_PAYLOAD_TYPE ++ u32le idx ++ u64le ts ++ p1 ++ p2 ++
        pf ++ [keys.length % 256] ++ keys.flatten ++ tail,
        0 + 4 + 4 + 8 + 32 + 32 + 32 + 1 + keys.length * 32⟩ =
      .ok (some p, rs') := by
    rw [show 0 + 4 + 4 + 8 + 32 + 32 + 32 + 1 + keys.length * 32 =
      113 + keys.length * 32 by omega]
    exact hnest
  unfold deserializeMilestonePayload
  rw [hrem]
  simp only [not_true_eq_false, if_false, Bool.false_eq_true, reduceIte,
    MESSAGE_ID_LENGTH, MERKLE_PROOF_LENGTH, Ed25519.PUBLIC_KEY_SIZE]
  rw [r1]
  simp only [ne_eq, not_true_eq_false, if_false, reduceIte]
  rw [r2]
  simp only []
  rw [r3]
  simp only []
  rw [r4]
  simp only []
  rw [r5]
  simp only []
  rw [r6]
  simp only []
  rw [r7]
  simp only []
  nth_rewrite 1 [hkmod]
  rw [r8]
  simp only []
  rw [hnest']
  rcases p with t | ms | io | r
  · simp
  · simp
  · simp
  · exact absurd rfl (hnr r)

def c5BadMilestoneBytes : List Nat :=
  u32le MILESTONE_PAYLOAD_TYPE ++ u32le 3 ++ u64le 1000 ++
  List.replicate 32 1 ++ List.replicate 32 2 ++ List.replicate 32 3 ++
  [1] ++ List.replicate 32 4 ++
  (serializePayload ⟨[], 0⟩ (some (.transaction ⟨⟨[]⟩, []⟩))).1.storage ++
  [1] ++ List.replicate 64 6

def c5GoodMilestoneBytes : List Nat :=
  u32le MILESTONE_PAYLOAD_TYPE ++ u32le 3 ++ u64le 1000 ++
  List.replicate 32 1 ++ List.replicate 32 2 ++ List.replicate 32 3 ++
  [1] ++ List.replicate 32 4 ++ u32le 0 ++ [1] ++ List.replicate 64 6

/-- C5: whenever deserializeMilestonePayload succeeds, the embedded payload
decoded by the recursive envelope call between the public-key list and the
signature count is either absent or a Receipt (the milestone value's receipt
field); a milestone byte sequence whose embedded payload decodes to any
other kind is rejected with the invalid-nested-payload-kind error, shown
both for arbitrary well-formed milestone prefixes and on a concrete
223-byte milestone embedding a Transaction payload. -/
theorem c5_milestone_nested_receipt_only :
    (∀ (fuel : Nat) (rs rs' : ReadStream) (m : IMilestonePayload),
      deserializeMilestonePayload (fuel + 1) rs = .ok (m, rs') →
      ∃ rsMid rsAfter : ReadStream,
        deserializePayload fuel rsMid =
          .ok (m.receipt.map Payload.receipt, rsAfter)) ∧
    (∀ (idx ts : Nat) (p1 p2 pf : List Nat) (keys : List (List Nat))
      (tail : List Nat) (fuel : Nat) (p : Payload) (rs' : ReadStream),
      idx < 2 ^ 32 → ts < 2 ^ 64 →
      p1.length = 32 → p2.length = 32 → pf.length = 32 →
      keys.length ≤ 255 → (∀ k ∈ keys, k.length = 32) →
      210 ≤ (u32le MILESTONE_PAYLOAD_TYPE ++ u32le idx ++ u64le ts ++
        p1 ++ p2 ++ pf ++ [keys.length % 256] ++ keys.flatten ++
        tail).length →
      deserializePayload fuel
        ⟨u32le MILESTONE_PAYLOAD_TYPE ++ u32le idx ++ u64le ts ++ p1 ++
          p2 ++ pf ++ [keys.length % 256] ++ keys.flatten ++ tail,
          113 + keys.length * 32⟩ = .ok (some p, rs') →
      (∀ r, p ≠ Payload.receipt r) →
      deserializeMilestonePayload (fuel + 1)
        ⟨u32le MILESTONE_PAYLOAD_TYPE ++ u32le idx ++ u64le ts ++ p1 ++
          p2 ++ pf ++ [keys.length % 256] ++ keys.flatten ++ tail, 0⟩ =
        .error .milestoneNestedKind) ∧
    deserializeMilestonePayload 2 ⟨c5BadMilestoneBytes, 0⟩ =
      .error CodecError.milestoneNestedKind :=
  ⟨fun fuel rs rs' m h => c5_success_shape fuel rs rs' m h,
   fun _ _ _ _ _ _ _ _ _ _ h1 h2 h3 h4 h5 h6 h7 h8 h9 h10 =>
     c5_nonreceipt_error h1 h2 h3 h4 h5 h6 h7 h8 h9 h10,
   by set_option maxRecDepth 1000000 in decide⟩

theorem c5_milestone_nested_receipt_only_witness :
    ∃ rsMid rsAfter : ReadStream,
      deserializePayload 1 rsMid =
        .ok ((⟨3, 1000, List.replicate 32 1, List.replicate 32 2,
          List.replicate 32 3, [List.replicate 32 4], none,
          [List.replicate 64 6]⟩ : IMilestonePayload).receipt.map
            Payload.receipt, rsAfter) :=
  c5_milestone_nested_receipt_only.1 1 ⟨c5GoodMilestoneBytes, 0⟩
    ⟨c5GoodMilestoneBytes, 214⟩ _
    (by set_option maxRecDepth 1000000 in decide)

/-- Replace the backing storage of a read result, keeping the decoded value
and the read position. -/
def resultRebase {α : Type} (σ : List Nat) : RRes α → RRes α
  | .error e => .error e
  | .ok (a, rs) => .ok (a, ⟨σ, rs.readIndex⟩)

/-- A reader only looks at the bytes from its start position on: on two
same-length storages agreeing from position i, it returns the same value,
the same error, and the same final position; and on success it keeps the
storage and never moves backwards. -/
def LocalReader {α : Type} (F : ReadStream → RRes α) : Prop :=
  ∀ σ σ' i, σ.length = σ'.length → σ.drop i = σ'.drop i →
    (F ⟨σ', i⟩ = resultRebase σ' (F ⟨σ, i⟩) ∧
     ∀ a rs', F ⟨σ, i⟩ = .ok (a, rs') → rs'.storage = σ ∧ i ≤ rs'.readIndex)

theorem drop_eq_of_le {σ σ' : List Nat} {i j : Nat} (hij : i ≤ j)
    (h : σ.drop i = σ'.drop i) : σ.drop j = σ'.drop j := by
  have h1 : σ.drop j = (σ.drop i).drop (j - i) := by
    rw [List.drop_drop]
    congr 1
    omega
  have h2 : σ'.drop j = (σ'.drop i).drop (j - i) := by
    rw [List.drop_drop]
    congr 1
    omega
  rw [h1, h2, h]


/-- Sequencing of two readers: run the first, feed its value and stream to
the second, propagating errors. -/
def bindR {α β : Type} (F : ReadStream → RRes α)
    (G : α → ReadStream → RRes β) : ReadStream → RRes β :=
  fun rs =>
    match F rs with
    | .error e => .error e
    | .ok (a, rs1) => G a rs1

/-- The reader returning a value without consuming anything. -/
def pureR {α : Type} (a : α) : ReadStream → RRes α :=
  fun rs => .ok (a, rs)

/-- The reader failing with a fixed error. -/
def errR {α : Type} (e : CodecError) : ReadStream → RRes α :=
  fun _ => .error e

/-- A branch on a stream-independent condition. -/
def ifR {α : Type} (c : Prop) [Decidable c]
    (F G : ReadStream → RRes α) : ReadStream → RRes α :=
  fun rs => if c then F rs else G rs

/-- The minimum-remaining-bytes precheck guarding a reader, with an error
built from the stream length and the unread count. -/
def remCheckR {α : Type} (n : Nat) (mkErr : Nat → Nat → CodecError)
    (F : ReadStream → RRes α) : ReadStream → RRes α :=
  fun rs =>
    if ¬ rs.hasRemaining n then .error (mkErr rs.length rs.unused)
    else F rs

theorem localReader_pureR {α : Type} (a : α) : LocalReader (pureR a) := by
  intro σ σ' i _ _
  refine ⟨rfl, fun b rs' h => ?_⟩
  simp only [pureR] at h
  cases h
  exact ⟨rfl, Nat.le_refl i⟩

theorem localReader_errR {α : Type} (e : CodecError) :
    LocalReader (errR (α := α) e) := by
  intro σ σ' i _ _
  exact ⟨rfl, fun a rs' h => by simp [errR] at h⟩

theorem localReader_ifR {α : Type} (c : Prop) [Decidable c]
    {F G : ReadStream → RRes α} (hF : LocalReader F) (hG : LocalReader G) :
    LocalReader (ifR c F G) := by
  by_cases hc : c
  · have he : ifR c F G = F := by
      funext rs
      simp [ifR, hc]
    rw [he]
    exact hF
  · have he : ifR c F G = G := by
      funext rs
      simp [ifR, hc]
    rw [he]
    exact hG

theorem localReader_remCheckR {α : Type} (n : Nat)
    (mkErr : Nat → Nat → CodecError) {F : ReadStream → RRes α}
    (hF : LocalReader F) : LocalReader (remCheckR n mkErr F) := by
  intro σ σ' i hlen hdrop
  have hrem : ReadStream.hasRemaining ⟨σ', i⟩ n =
      ReadStream.hasRemaining ⟨σ, i⟩ n := by
    simp [ReadStream.hasRemaining, hlen]
  constructor
  · simp only [remCheckR]
    by_cases hc : ReadStream.hasRemaining ⟨σ, i⟩ n = true
    · have hc' : ReadStream.hasRemaining ⟨σ', i⟩ n = true := by
        rw [hrem]
        exact hc
      simp only [hc, hc', not_true_eq_false, if_false]
      exact (hF σ σ' i hlen hdrop).1
    · have hc' : ¬ ReadStream.hasRemaining ⟨σ', i⟩ n = true := by
        rw [hrem]
        exact hc
      simp [hc, hc', resultRebase, ReadStream.length, ReadStream.unused, hlen]
  · intro a rs' h
    simp only [remCheckR] at h
    split at h
    · exact Except.noConfusion h
    · exact (hF σ σ i rfl rfl).2 a rs' h

theorem localReader_bindR {α β : Type} {F : ReadStream → RRes α}
    {G : α → ReadStream → RRes β} (hF : LocalReader F)
    (hG : ∀ a, LocalReader (G a)) : LocalReader (bindR F G) := by
  intro σ σ' i hlen hdrop
  obtain ⟨hFtrans, hFframe⟩ := hF σ σ' i hlen hdrop
  constructor
  · simp only [bindR]
    rw [hFtrans]
    cases hcase : F ⟨σ, i⟩ with
    | error e => simp [resultRebase]
    | ok p =>
      obtain ⟨a, rs1⟩ := p
      obtain ⟨hst, hidx⟩ := hFframe a rs1 hcase
      simp only [resultRebase]
      have hdrop1 : σ.drop rs1.readIndex = σ'.drop rs1.readIndex :=
        drop_eq_of_le hidx hdrop
      have htrans := ((hG a) σ σ' rs1.readIndex hlen hdrop1).1
      rw [htrans]
      congr 1
      rw [← hst]
  · intro b rs' h
    simp only [bindR] at h
    cases hcase : F ⟨σ, i⟩ with
    | error e =>
      rw [hcase] at h
      exact Except.noConfusion h
    | ok p =>
      obtain ⟨a, rs1⟩ := p
      rw [hcase] at h
      simp only [] at h
      obtain ⟨hst, hidx⟩ := hFframe a rs1 hcase
      have hrs1 : rs1 = (⟨σ, rs1.readIndex⟩ : ReadStream) := by
        rw [← hst]
      rw [hrs1] at h
      obtain ⟨h1, h2⟩ := ((hG a) σ σ rs1.readIndex rfl rfl).2 b rs' h
      exact ⟨h1, Nat.le_trans hidx h2⟩

theorem localReader_readBytesP (n : Nat) : LocalReader (readBytesP n) := by
  intro σ σ' i hlen hdrop
  constructor
  · unfold readBytesP
    dsimp only
    by_cases hc : i + n ≤ σ.length
    · rw [if_pos (show i + n ≤ σ'.length by omega), if_pos hc]
      simp [resultRebase, hdrop]
    · rw [if_neg (show ¬ i + n ≤ σ'.length by omega), if_neg hc]
      simp [resultRebase]
  · intro a rs' h
    unfold readBytesP at h
    dsimp only at h
    split at h
    · cases h
      exact ⟨rfl, Nat.le_add_right i n⟩
    · exact Except.noConfusion h

theorem localReader_peekBytesP (n : Nat) : LocalReader (peekBytesP n) := by
  intro σ σ' i hlen hdrop
  constructor
  · unfold peekBytesP
    dsimp only
    by_cases hc : i + n ≤ σ.length
    · rw [if_pos (show i + n ≤ σ'.length by omega), if_pos hc]
      simp [resultRebase, hdrop]
    · rw [if_neg (show ¬ i + n ≤ σ'.length by omega), if_neg hc]
      simp [resultRebase]
  · intro a rs' h
    unfold peekBytesP at h
    dsimp only at h
    split at h
    · cases h
      exact ⟨rfl, Nat.le_refl i⟩
    · exact Except.noConfusion h


theorem readUInt16P_asBind :
    readUInt16P = bindR (readBytesP 2) (fun bs => pureR (fromLE bs)) := by
  funext rs
  unfold readUInt16P
  simp only [bindR, pureR, errR, ifR, remCheckR]
  repeat' (first
    | rfl
    | (rename_i h
       first
        | rw [h]
        | rw [if_pos h]
        | rw [if_neg h])
    | simp only []
    | split)

theorem readUInt32P_asBind :
    readUInt32P = bindR (readBytesP 4) (fun bs => pureR (fromLE bs)) := by
  funext rs
  unfold readUInt32P
  simp only [bindR, pureR, errR, ifR, remCheckR]
  repeat' (first
    | rfl
    | (rename_i h
       first
        | rw [h]
        | rw [if_pos h]
        | rw [if_neg h])
    | simp only []
    | split)

theorem peekUInt32P_asBind :
    peekUInt32P = bindR (peekBytesP 4) (fun bs => pureR (fromLE bs)) := by
  funext rs
  unfold peekUInt32P
  simp only [bindR, pureR, errR, ifR, remCheckR]
  repeat' (first
    | rfl
    | (rename_i h
       first
        | rw [h]
        | rw [if_pos h]
        | rw [if_neg h])
    | simp only []
    | split)

theorem readUInt64P_asBind :
    readUInt64P = bindR (readBytesP 8) (fun bs => pureR (fromLE bs)) := by
  funext rs
  unfold readUInt64P
  simp only [bindR, pureR, errR, ifR, remCheckR]
  repeat' (first
    | rfl
    | (rename_i h
       first
        | rw [h]
        | rw [if_pos h]
        | rw [if_neg h])
    | simp only []
    | split)

theorem readByteP_asBind :
    readByteP = bindR (readBytesP 1) (fun bs => pureR (fromLE bs)) := by
  funext rs
  unfold readByteP
  simp only [bindR, pureR, errR, ifR, remCheckR]
  repeat' (first
    | rfl
    | (rename_i h
       first
        | rw [h]
        | rw [if_pos h]
        | rw [if_neg h])
    | simp only []
    | split)

theorem peekByteP_asBind :
    peekByteP = bindR (peekBytesP 1) (fun bs => pureR (fromLE bs)) := by
  funext rs
  unfold peekByteP
  simp only [bindR, pureR, errR, ifR, remCheckR]
  repeat' (first
    | rfl
    | (rename_i h
       first
        | rw [h]
        | rw [if_pos h]
        | rw [if_neg h])
    | simp only []
    | split)

theorem readStringP_asBind :
    readStringP = bindR readUInt16P (fun n => readBytesP n) := by
  funext rs
  unfold readStringP
  simp only [bindR, pureR, errR, ifR, remCheckR]
  repeat' (first
    | rfl
    | (rename_i h
       first
        | rw [h]
        | rw [if_pos h]
        | rw [if_neg h])
    | simp only []
    | split)

theorem readManyP_zero_asBind (size : Nat) :
    readManyP 0 size = pureR [] := by
  funext rs
  rfl

theorem readManyP_succ_asBind (c size : Nat) :
    readManyP (c + 1) size = bindR (readBytesP size)
      (fun h => bindR (readManyP c size) (fun t => pureR (h :: t))) := by
  funext rs
  unfold readManyP
  simp only [bindR, pureR, errR, ifR, remCheckR]
  repeat' (first
    | rfl
    | (rename_i h
       first
        | rw [h]
        | rw [if_pos h]
        | rw [if_neg h])
    | simp only []
    | split)

theorem localReader_readUInt16P : LocalReader readUInt16P := by
  rw [readUInt16P_asBind]
  exact localReader_bindR (localReader_readBytesP 2)
    (fun bs => localReader_pureR (fromLE bs))

theorem localReader_readUInt32P : LocalReader readUInt32P := by
  rw [readUInt32P_asBind]
  exact localReader_bindR (localReader_readBytesP 4)
    (fun bs => localReader_pureR (fromLE bs))

theorem localReader_peekUInt32P : LocalReader peekUInt32P := by
  rw [peekUInt32P_asBind]
  exact localReader_bindR (localReader_peekBytesP 4)
    (fun bs => localReader_pureR (fromLE bs))

theorem localReader_readUInt64P : LocalReader readUInt64P := by
  rw [readUInt64P_asBind]
  exact localReader_bindR (localReader_readBytesP 8)
    (fun bs => localReader_pureR (fromLE bs))

theorem localReader_readByteP : LocalReader readByteP := by
  rw [readByteP_asBind]
  exact localReader_bindR (localReader_readBytesP 1)
    (fun bs => localReader_pureR (fromLE bs))

theorem localReader_peekByteP : LocalReader peekByteP := by
  rw [peekByteP_asBind]
  exact localReader_bindR (localReader_peekBytesP 1)
    (fun bs => localReader_pureR (fromLE bs))

theorem localReader_readFixedHexP (n : Nat) :
    LocalReader (readFixedHexP n) := localReader_readBytesP n

theorem localReader_readStringP : LocalReader readStringP := by
  rw [readStringP_asBind]
  exact localReader_bindR localReader_readUInt16P
    (fun n => localReader_readBytesP n)

theorem localReader_readManyP (count size : Nat) :
    LocalReader (readManyP count size) := by
  induction count with
  | zero =>
    rw [readManyP_zero_asBind]
    exact localReader_pureR []
  | succ c ih =>
    rw [readManyP_succ_asBind]
    exact localReader_bindR (localReader_readBytesP size)
      (fun h => localReader_bindR ih (fun t => localReader_pureR (h :: t)))

theorem essence_asBind :
    deserializeTransactionEssence = bindR readByteP (fun t =>
      ifR (t ≠ TRANSACTION_ESSENCE_TYPE) (errR (.essenceTypeMismatch t))
        (bindR readUInt16P (fun n => bindR (readBytesP n)
          (fun d => pureR ⟨d⟩)))) := by
  funext rs
  unfold deserializeTransactionEssence
  simp only [bindR, pureR, errR, ifR, remCheckR]
  repeat' (first
    | rfl
    | (rename_i h
       first
        | rw [h]
        | rw [if_pos h]
        | rw [if_neg h])
    | simp only []
    | split)

theorem unlockBlocks_asBind :
    deserializeUnlockBlocks = bindR readUInt16P (fun n =>
      bindR (readBytesP n) (fun u => pureR u)) := by
  funext rs
  unfold deserializeUnlockBlocks
  simp only [bindR, pureR, errR, ifR, remCheckR]
  repeat' (first
    | rfl
    | (rename_i h
       first
        | rw [h]
        | rw [if_pos h]
        | rw [if_neg h])
    | simp only []
    | split)

theorem funds_asBind :
    deserializeFunds = bindR readUInt16P (fun n =>
      bindR (readManyP n MIN_MIGRATED_FUNDS_LENGTH)
        (fun fs => pureR (fs.map IMigratedFunds.mk))) := by
  funext rs
  unfold deserializeFunds
  simp only [bindR, pureR, errR, ifR, remCheckR]
  repeat' (first
    | rfl
    | (rename_i h
       first
        | rw [h]
        | rw [if_pos h]
        | rw [if_neg h])
    | simp only []
    | split)

theorem transactionPayload_asBind :
    deserializeTransactionPayload =
      remCheckR MIN_TRANSACTION_PAYLOAD_LENGTH
        (fun len _ => .transactionMinUnderflow len)
        (bindR readUInt32P (fun type =>
          ifR (type ≠ TRANSACTION_PAYLOAD_TYPE)
            (errR (.transactionTypeMismatch type))
            (bindR peekByteP (fun essenceType =>
              ifR (essenceType = TRANSACTION_ESSENCE_TYPE)
                (bindR deserializeTransactionEssence (fun essence =>
                  bindR deserializeUnlockBlocks (fun unlockBlocks =>
                    pureR ⟨essence, unlockBlocks⟩)))
                (errR (.unrecognizedEssenceType type)))))) := by
  funext rs
  unfold deserializeTransactionPayload
  simp only [bindR, pureR, errR, ifR, remCheckR]
  repeat' (first
    | rfl
    | (rename_i h
       first
        | rw [h]
        | rw [if_pos h]
        | rw [if_neg h])
    | simp only []
    | split)

theorem indexationPayload_asBind :
    deserializeIndexationPayload =
      remCheckR MIN_INDEXATION_PAYLOAD_LENGTH
        (fun len _ => .indexationMinUnderflow len)
        (bindR readUInt32P (fun type =>
          ifR (type ≠ INDEXATION_PAYLOAD_TYPE)
            (errR (.indexationTypeMismatch type))
            (bindR readStringP (fun index =>
              bindR readUInt32P (fun dataLength =>
                bindR (readFixedHexP dataLength) (fun data =>
                  pureR ⟨index, data⟩)))))) := by
  funext rs
  unfold deserializeIndexationPayload
  simp only [bindR, pureR, errR, ifR, remCheckR]
  repeat' (first
    | rfl
    | (rename_i h
       first
        | rw [h]
        | rw [if_pos h]
        | rw [if_neg h])
    | simp only []
    | split)

theorem receiptPayload_asBind :
    deserializeReceiptPayload =
      remCheckR MIN_RECEIPT_PAYLOAD_LENGTH
        (fun len _ => .receiptMinUnderflow len)
        (bindR readUInt32P (fun type =>
          ifR (type ≠ RECEIPT_PAYLOAD_TYPE)
            (errR (.receiptTypeMismatch type))
            (bindR readUInt32P (fun migratedAt =>
              bindR deserializeFunds (fun funds =>
                pureR ⟨migratedAt, funds⟩))))) := by
  funext rs
  unfold deserializeReceiptPayload
  simp only [bindR, pureR, errR, ifR, remCheckR]
  repeat' (first
    | rfl
    | (rename_i h
       first
        | rw [h]
        | rw [if_pos h]
        | rw [if_neg h])
    | simp only []
    | split)

theorem milestoneTail_asBind (index timestamp : Nat)
    (pm1 pm2 proof : List Nat) (publicKeys : List (List Nat))
    (rcpt : Option IReceiptPayload) :
    (fun rs => deserializeMilestoneTail rs index timestamp pm1 pm2 proof
      publicKeys rcpt) =
    bindR readByteP (fun c =>
      bindR (readManyP c Ed25519.SIGNATURE_SIZE) (fun sigs =>
        pureR ⟨index, timestamp, pm1, pm2, proof, publicKeys, rcpt,
          sigs⟩)) := by
  funext rs
  unfold deserializeMilestoneTail
  simp only [bindR, pureR, errR, ifR, remCheckR]
  repeat' (first
    | rfl
    | (rename_i h
       first
        | rw [h]
        | rw [if_pos h]
        | rw [if_neg h])
    | simp only []
    | split)

theorem localReader_essence : LocalReader deserializeTransactionEssence := by
  rw [essence_asBind]
  exact localReader_bindR localReader_readByteP (fun t =>
    localReader_ifR _ (localReader_errR _)
      (localReader_bindR localReader_readUInt16P (fun n =>
        localReader_bindR (localReader_readBytesP n)
          (fun d => localReader_pureR ⟨d⟩))))

theorem localReader_unlockBlocks : LocalReader deserializeUnlockBlocks := by
  rw [unlockBlocks_asBind]
  exact localReader_bindR localReader_readUInt16P (fun n =>
    localReader_bindR (localReader_readBytesP n)
      (fun u => localReader_pureR u))

theorem localReader_funds : LocalReader deserializeFunds := by
  rw [funds_asBind]
  exact localReader_bindR localReader_readUInt16P (fun n =>
    localReader_bindR (localReader_readManyP n MIN_MIGRATED_FUNDS_LENGTH)
      (fun fs => localReader_pureR (fs.map IMigratedFunds.mk)))

theorem localReader_transactionPayload :
    LocalReader deserializeTransactionPayload := by
  rw [transactionPayload_asBind]
  exact localReader_remCheckR _ _
    (localReader_bindR localReader_readUInt32P (fun type =>
      localReader_ifR _ (localReader_errR _)
        (localReader_bindR localReader_peekByteP (fun essenceType =>
          localReader_ifR _
            (localReader_bindR localReader_essence (fun essence =>
              localReader_bindR localReader_unlockBlocks
                (fun unlockBlocks =>
                  localReader_pureR ⟨essence, unlockBlocks⟩)))
            (localReader_errR _)))))

theorem localReader_indexationPayload :
    LocalReader deserializeIndexationPayload := by
  rw [indexationPayload_asBind]
  exact localReader_remCheckR _ _
    (localReader_bindR localReader_readUInt32P (fun type =>
      localReader_ifR _ (localReader_errR _)
        (localReader_bindR localReader_readStringP (fun index =>
          localReader_bindR localReader_readUInt32P (fun dataLength =>
            localReader_bindR (localReader_readFixedHexP dataLength)
              (fun data => localReader_pureR ⟨index, data⟩))))))

theorem localReader_receiptPayload :
    LocalReader deserializeReceiptPayload := by
  rw [receiptPayload_asBind]
  exact localReader_remCheckR _ _
    (localReader_bindR localReader_readUInt32P (fun type =>
      localReader_ifR _ (localReader_errR _)
        (localReader_bindR localReader_readUInt32P (fun migratedAt =>
          localReader_bindR localReader_funds (fun funds =>
            localReader_pureR ⟨migratedAt, funds⟩)))))

theorem localReader_milestoneTail (index timestamp : Nat)
    (pm1 pm2 proof : List Nat) (publicKeys : List (List Nat))
    (rcpt : Option IReceiptPayload) :
    LocalReader (fun rs => deserializeMilestoneTail rs index timestamp pm1
      pm2 proof publicKeys rcpt) := by
  rw [milestoneTail_asBind]
  exact localReader_bindR localReader_readByteP (fun c =>
    localReader_bindR (localReader_readManyP c Ed25519.SIGNATURE_SIZE)
      (fun sigs => localReader_pureR ⟨index, timestamp, pm1, pm2, proof,
        publicKeys, rcpt, sigs⟩))

theorem payload_zero_asBind :
    deserializePayload 0 = errR .outOfFuel := by
  funext rs
  rfl

theorem milestone_zero_asBind :
    deserializeMilestonePayload 0 = errR .outOfFuel := by
  funext rs
  rfl

theorem payload_asBind (fuel : Nat) :
    deserializePayload (fuel + 1) =
      remCheckR MIN_PAYLOAD_LENGTH (fun len _ => .payloadMinUnderflow len)
        (bindR readUInt32P (fun payloadLength =>
          remCheckR payloadLength
            (fun _ un => .payloadLengthExceeds payloadLength un)
            (ifR (payloadLength > 0)
              (bindR peekUInt32P (fun payloadType =>
                ifR (payloadType = TRANSACTION_PAYLOAD_TYPE)
                  (bindR deserializeTransactionPayload
                    (fun p => pureR (some (.transaction p))))
                  (ifR (payloadType = MILESTONE_PAYLOAD_TYPE)
                    (bindR (deserializeMilestonePayload fuel)
                      (fun p => pureR (some (.milestone p))))
                    (ifR (payloadType = INDEXATION_PAYLOAD_TYPE)
                      (bindR deserializeIndexationPayload
                        (fun p => pureR (some (.indexation p))))
                      (ifR (payloadType = RECEIPT_PAYLOAD_TYPE)
                        (bindR deserializeReceiptPayload
                          (fun p => pureR (some (.receipt p))))
                        (errR (.unrecognizedPayloadType payloadType)))))))
              (pureR none)))) := by
  funext rs
  unfold deserializePayload
  simp only [bindR, pureR, errR, ifR, remCheckR]
  repeat' (first
    | rfl
    | (rename_i h
       first
        | rw [h]
        | rw [if_pos h]
        | rw [if_neg h])
    | simp only []
    | split)

theorem milestone_asBind (fuel : Nat) :
    deserializeMilestonePayload (fuel + 1) =
      remCheckR MIN_MILESTONE_PAYLOAD_LENGTH
        (fun len _ => .milestoneMinUnderflow len)
        (bindR readUInt32P (fun type =>
          ifR (type ≠ MILESTONE_PAYLOAD_TYPE)
            (errR (.milestoneTypeMismatch type))
            (bindR readUInt32P (fun index =>
              bindR readUInt64P (fun timestamp =>
                bindR (readFixedHexP MESSAGE_ID_LENGTH) (fun pm1 =>
                  bindR (readFixedHexP MESSAGE_ID_LENGTH) (fun pm2 =>
                    bindR (readFixedHexP MERKLE_PROOF_LENGTH) (fun proof =>
                      bindR readByteP (fun cnt =>
                        bindR (readManyP cnt Ed25519.PUBLIC_KEY_SIZE)
                          (fun publicKeys =>
                            bindR (deserializePayload fuel) (fun nested rs =>
                              match nested with
                              | some (.receipt r) =>
                                deserializeMilestoneTail rs index timestamp
                                  pm1 pm2 proof publicKeys (some r)
                              | none =>
                                deserializeMilestoneTail rs index timestamp
                                  pm1 pm2 proof publicKeys none
                              | some _ =>
                                .error .milestoneNestedKind))))))))))) := by
  funext rs
  unfold deserializeMilestonePayload
  simp only [bindR, pureR, errR, ifR, remCheckR]
  repeat' (first
    | rfl
    | (rename_i h
       first
        | rw [h]
        | rw [if_pos h]
        | rw [if_neg h])
    | simp only []
    | split)

theorem localReader_payload_pair : ∀ fuel : Nat,
    LocalReader (deserializePayload fuel) ∧
    LocalReader (deserializeMilestonePayload fuel) := by
  intro fuel
  induction fuel with
  | zero =>
    constructor
    · rw [payload_zero_asBind]
      exact localReader_errR _
    · rw [milestone_zero_asBind]
      exact localReader_errR _
  | succ fuel ih =>
    constructor
    · rw [payload_asBind fuel]
      exact localReader_remCheckR _ _
        (localReader_bindR localReader_readUInt32P (fun payloadLength =>
          localReader_remCheckR _ _
            (localReader_ifR _
              (localReader_bindR localReader_peekUInt32P (fun payloadType =>
                localReader_ifR _
                  (localReader_bindR localReader_transactionPayload
                    (fun p => localReader_pureR (some (.transaction p))))
                  (localReader_ifR _
                    (localReader_bindR ih.2
                      (fun p => localReader_pureR (some (.milestone p))))
                    (localReader_ifR _
                      (localReader_bindR localReader_indexationPayload
                        (fun p => localReader_pureR (some (.indexation p))))
                      (localReader_ifR _
                        (localReader_bindR localReader_receiptPayload
                          (fun p => localReader_pureR (some (.receipt p))))
                        (localReader_errR _))))))
              (localReader_pureR none))))
    · rw [milestone_asBind fuel]
      refine localReader_remCheckR _ _
        (localReader_bindR localReader_readUInt32P (fun type =>
          localReader_ifR _ (localReader_errR _)
            (localReader_bindR localReader_readUInt32P (fun index =>
              localReader_bindR localReader_readUInt64P (fun timestamp =>
                localReader_bindR (localReader_readFixedHexP _) (fun pm1 =>
                  localReader_bindR (localReader_readFixedHexP _) (fun pm2 =>
                    localReader_bindR (localReader_readFixedHexP _)
                      (fun proof =>
                        localReader_bindR localReader_readByteP (fun cnt =>
                          localReader_bindR (localReader_readManyP cnt _)
                            (fun publicKeys =>
                              localReader_bindR ih.1 (fun nested => ?_)))))))))))
      rcases nested with _ | p
      · exact localReader_milestoneTail index timestamp pm1 pm2 proof
          publicKeys none
      · rcases p with t | m | io | r
        · exact localReader_errR _
        · exact localReader_errR _
        · exact localReader_errR _
        · exact localReader_milestoneTail index timestamp pm1 pm2 proof
            publicKeys (some r)

theorem remCheckR_pass {α : Type} {n : Nat} {mkErr : Nat → Nat → CodecError}
    {F : ReadStream → RRes α} {rs : ReadStream}
    (h : rs.hasRemaining n = true) : remCheckR n mkErr F rs = F rs := by
  unfold remCheckR
  rw [h]
  simp

theorem bindR_ok {α β : Type} {F : ReadStream → RRes α}
    {G : α → ReadStream → RRes β} {rs rs1 : ReadStream} {a : α}
    (h : F rs = .ok (a, rs1)) : bindR F G rs = G a rs1 := by
  unfold bindR
  rw [h]

theorem ifR_pos {α : Type} {c : Prop} [Decidable c]
    {F G : ReadStream → RRes α} {rs : ReadStream} (h : c) :
    ifR c F G rs = F rs := by
  unfold ifR
  rw [if_pos h]

/-- C8: the declared outer length of the payload envelope is used only for
the remaining-bytes bound check.  For a fixed byte suffix after the length
field, any two nonzero declared lengths that both pass the bound check give
the same decode result and the same final read position: the length is
never compared against the number of bytes the variant codec actually
consumed. -/
theorem c8_declared_length_only_bounds (rest : List Nat)
    (L1 L2 fuel : Nat) (hp1 : 0 < L1) (hp2 : 0 < L2)
    (hv1 : L1 < 2 ^ 32) (hv2 : L2 < 2 ^ 32)
    (hb1 : L1 ≤ rest.length) (hb2 : L2 ≤ rest.length) :
    deserializePayload (fuel + 1) ⟨u32le L2 ++ rest, 0⟩ =
      resultRebase (u32le L2 ++ rest)
        (deserializePayload (fuel + 1) ⟨u32le L1 ++ rest, 0⟩) := by
  have hlen1 : (u32le L1 ++ rest).length = 4 + rest.length := by
    simp
  have hlen2 : (u32le L2 ++ rest).length = 4 + rest.length := by
    simp
  have hd01 : (u32le L1 ++ rest).drop 0 = u32le L1 ++ rest := by simp
  have hd02 : (u32le L2 ++ rest).drop 0 = u32le L2 ++ rest := by simp
  have r1 := readUInt32P_eq (v := L1) hv1 (Nat.zero_le _) hd01
  have r2 := readUInt32P_eq (v := L2) hv2 (Nat.zero_le _) hd02
  have hrem1 : ReadStream.hasRemaining ⟨u32le L1 ++ rest, 0⟩
      MIN_PAYLOAD_LENGTH = true := by
    apply hasRemaining_of_le
    have hM : MIN_PAYLOAD_LENGTH = 4 := rfl
    omega
  have hrem2 : ReadStream.hasRemaining ⟨u32le L2 ++ rest, 0⟩
      MIN_PAYLOAD_LENGTH = true := by
    apply hasRemaining_of_le
    have hM : MIN_PAYLOAD_LENGTH = 4 := rfl
    omega
  have hremL1 : ReadStream.hasRemaining ⟨u32le L1 ++ rest, 0 + 4⟩ L1
      = true := by
    apply hasRemaining_of_le
    omega
  have hremL2 : ReadStream.hasRemaining ⟨u32le L2 ++ rest, 0 + 4⟩ L2
      = true := by
    apply hasRemaining_of_le
    omega
  have hdA : (u32le L1 ++ rest).drop (0 + 4) = rest := by
    have := drop_next hd01
    rw [u32le_length] at this
    exact this
  have hdB : (u32le L2 ++ rest).drop (0 + 4) = rest := by
    have := drop_next hd02
    rw [u32le_length] at this
    exact this
  have hL : LocalReader (bindR peekUInt32P (fun payloadType =>
      ifR (payloadType = TRANSACTION_PAYLOAD_TYPE)
        (bindR deserializeTransactionPayload
          (fun p => pureR (some (Payload.transaction p))))
        (ifR (payloadType = MILESTONE_PAYLOAD_TYPE)
          (bindR (deserializeMilestonePayload fuel)
            (fun p => pureR (some (Payload.milestone p))))
          (ifR (payloadType = INDEXATION_PAYLOAD_TYPE)
            (bindR deserializeIndexationPayload
              (fun p => pureR (some (Payload.indexation p))))
            (ifR (payloadType = RECEIPT_PAYLOAD_TYPE)
              (bindR deserializeReceiptPayload
                (fun p => pureR (some (Payload.receipt p))))
              (errR (.unrecognizedPayloadType payloadType))))))) :=
    localReader_bindR localReader_peekUInt32P (fun payloadType =>
      localReader_ifR _
        (localReader_bindR localReader_transactionPayload
          (fun p => localReader_pureR (some (Payload.transaction p))))
        (localReader_ifR _
          (localReader_bindR (localReader_payload_pair fuel).2
            (fun p => localReader_pureR (some (Payload.milestone p))))
          (localReader_ifR _
            (localReader_bindR localReader_indexationPayload
              (fun p => localReader_pureR (some (Payload.indexation p))))
            (localReader_ifR _
              (localReader_bindR localReader_receiptPayload
                (fun p => localReader_pureR (some (Payload.receipt p))))
              (localReader_errR _)))))
  rw [payload_asBind fuel]
  rw [remCheckR_pass hrem2, bindR_ok r2, remCheckR_pass hremL2, ifR_pos hp2]
  rw [remCheckR_pass hrem1, bindR_ok r1, remCheckR_pass hremL1, ifR_pos hp1]
  exact (hL (u32le L1 ++ rest) (u32le L2 ++ rest) (0 + 4)
    (by rw [hlen1, hlen2]) (by rw [hdA, hdB])).1

def c8Rest : List Nat :=
  u32le INDEXATION_PAYLOAD_TYPE ++ u16le 1 ++ [65] ++ u32le 0

theorem c8_declared_length_only_bounds_witness :
    deserializePayload 3 ⟨u32le 5 ++ c8Rest, 0⟩ =
      resultRebase (u32le 5 ++ c8Rest)
        (deserializePayload 3 ⟨u32le 11 ++ c8Rest, 0⟩) :=
  c8_declared_length_only_bounds c8Rest 11 5 2 (by decide) (by decide)
    (by decide) (by decide) (by decide) (by decide)
